import Mathlib

/-!
Verification of the sync/reconciliation layer of the `report-for-hotspot`
repository: a shallow embedding in Lean 4 of the source-registry parser,
the warehouse fact-row pipeline (sorting, id assignment, per-source fault
isolation), the reference-cache replace-semantics sync, the reseller
identity map, and the backfill merge query, together with theorems settling
the frozen claims about them.

Conventions of the embedding:
  * Python / SQL strings are Lean `String`s (in this toolchain a `String`
    wraps a `List Char`, so all string operations reduce by `decide`).
  * Nullable SQL / pandas values are `Option`s; SQL three-valued comparisons
    on NULL are modelled as they evaluate in a WHERE clause (NULL is not
    true).
  * Machine integers are `Int` (no overflow is exercised by any claim) and
    SQL decimals are `ℚ`.
  * Fallible code returns `Except`; a raised exception is `.error`.
-/

namespace Spec2Proof

/-! ## String helpers (the Python `str` operations the source uses)

Python's `str.split(sep)` with a one-character separator, `str.strip()`,
`str.lower()` and `int(...)` are modelled structurally over the character
list of the string.  `str.lower` is modelled on ASCII letters (the
configuration and reseller names the claims exercise are ASCII). -/

/-- One-character `str.split`: `"".split(sep) == ['']`, separators delimit
(possibly empty) fields. -/
def splitOnChar (sep : Char) : List Char → List (List Char)
  | [] => [[]]
  | c :: rest =>
    let r := splitOnChar sep rest
    if c = sep then [] :: r
    else
      match r with
      | [] => [[c]]
      | hd :: tl => (c :: hd) :: tl

def pySplit (sep : Char) (s : String) : List String :=
  (splitOnChar sep s.data).map String.mk

/-- Python `str.strip()`: drop whitespace from both ends. -/
def pyStrip (s : String) : String :=
  String.mk (((s.data.dropWhile Char.isWhitespace).reverse.dropWhile Char.isWhitespace).reverse)

/-- SQL `TRIM(...)` (BigQuery/MySQL default): drop space characters only. -/
def sqlTrim (s : String) : String :=
  String.mk (((s.data.dropWhile (· = ' ')).reverse.dropWhile (· = ' ')).reverse)

def lowerChar (c : Char) : Char :=
  if 'A' ≤ c ∧ c ≤ 'Z' then Char.ofNat (c.toNat + 32) else c

/-- ASCII `str.lower()` / SQL `LOWER(...)`. -/
def pyLower (s : String) : String :=
  String.mk (s.data.map lowerChar)

def digitVal (c : Char) : Option Nat :=
  if c.isDigit then some (c.toNat - '0'.toNat) else none

def digitsToNat (cs : List Char) : Option Nat :=
  if cs.isEmpty then none
  else
    cs.foldl
      (fun acc c =>
        match acc, digitVal c with
        | some n, some d => some (n * 10 + d)
        | _, _ => none)
      (some 0)

/-- Python `int(s)`: optional surrounding whitespace, optional sign, digits;
`none` models the `ValueError` it raises otherwise. -/
def pyInt (s : String) : Option Int :=
  match (pyStrip s).data with
  | '-' :: rest => (digitsToNat rest).map (fun n => -(n : Int))
  | '+' :: rest => (digitsToNat rest).map (fun n => (n : Int))
  | rest => (digitsToNat rest).map (fun n => (n : Int))

/-! ## Source registry (`reports/sync.py`, `_parse_sources`) -/

structure Source where
  name : String
  host : String
  port : Int
  db : String
  user : String
  password : String
deriving Repr, DecidableEq

/-- The environment variables `_parse_sources` reads (`os.getenv`: `none`
when unset). -/
structure Env where
  maria_sources : Option String
  maria_db : Option String
  maria_host : Option String
  maria_port : Option String
  maria_user : Option String
  maria_password : Option String
deriving Repr

/-- The loop body of `_parse_sources` over the `;`-separated items: a blank
item or one with fewer than 6 comma-separated fields is skipped silently;
`int(port)` on a non-integer field raises `ValueError` (modelled as
`.error`). -/
def parseItems : List String → Except String (List Source)
  | [] => .ok []
  | item :: rest =>
    let item := pyStrip item
    if item = "" then parseItems rest
    else
      let parts := (pySplit ',' item).map pyStrip
      if parts.length < 6 then parseItems rest
      else
        match pyInt (parts.getD 2 "") with
        | none => .error "ValueError"
        | some port =>
          (parseItems rest).map (fun srcs =>
            { name := if parts.getD 0 "" = "" then parts.getD 1 "" else parts.getD 0 ""
              host := parts.getD 1 ""
              port := port
              db := parts.getD 3 ""
              user := parts.getD 4 ""
              password := parts.getD 5 "" } :: srcs)

/-- The single-source fallback of `_parse_sources` (the discrete
`MARIA_*` variables, with the defaults the code passes to `os.getenv`). -/
def fallbackSource (env : Env) : Except String Source :=
  match pyInt (env.maria_port.getD "3306") with
  | none => .error "ValueError"
  | some port =>
    .ok { name := env.maria_db.getD "default"
          host := env.maria_host.getD "localhost"
          port := port
          db := env.maria_db.getD ""
          user := env.maria_user.getD "root"
          password := env.maria_password.getD "" }

/-- `_parse_sources`: parse the multi-source descriptor `MARIA_SOURCES`
when it is set and non-blank; when it yields no source (absent, blank, or
every record skipped) fall back to the single-source variables. -/
def parseSources (env : Env) : Except String (List Source) :=
  let raw := pyStrip (env.maria_sources.getD "")
  if raw ≠ "" then
    match parseItems (pySplit ';' raw) with
    | .error e => .error e
    | .ok sources =>
      if sources ≠ [] then .ok sources
      else (fallbackSource env).map (fun s => [s])
  else (fallbackSource env).map (fun s => [s])

/-- An environment with nothing set but the multi-source descriptor. -/
def envOnlySources (raw : String) : Env :=
  { maria_sources := some raw, maria_db := none, maria_host := none,
    maria_port := none, maria_user := none, maria_password := none }

/-! ## The `Package` column of the fact query (`_fetch_maria_rows`)

The SQL is
`CASE WHEN COALESCE(NULLIF(STrA,0), NULLIF(MTrA,0), NULLIF(DTrA,0),
NULLIF(YTrA,0), NULLIF(ExtraTraffic,0)) IS NULL THEN NULL ELSE
ROUND(COALESCE(...same...) / 1073741824, 2) END`.  The raw traffic columns
are nullable integers; the result is a nullable decimal. -/

structure TrafficFields where
  stra : Option Int
  mtra : Option Int
  dtra : Option Int
  ytra : Option Int
  extraTraffic : Option Int
deriving Repr, DecidableEq

/-- SQL `NULLIF(x, 0)`. -/
def nullif0 (x : Option Int) : Option Int :=
  x.bind (fun v => if v = 0 then none else some v)

/-- SQL `COALESCE` over a list of nullable values. -/
def sqlCoalesce : List (Option Int) → Option Int
  | [] => none
  | x :: rest =>
    match x with
    | some v => some v
    | none => sqlCoalesce rest

/-- SQL `ROUND(q, 2)` (round half away from zero; all traffic quantities
exercised are non-negative, where this agrees with `round`). -/
def roundTo2 (q : ℚ) : ℚ := (round (q * 100) : ℚ) / 100

def trafficCoalesce (t : TrafficFields) : Option Int :=
  sqlCoalesce [nullif0 t.stra, nullif0 t.mtra, nullif0 t.dtra,
               nullif0 t.ytra, nullif0 t.extraTraffic]

/-- The `Package` expression of the fact query. -/
def packageOf (t : TrafficFields) : Option ℚ :=
  match trafficCoalesce t with
  | none => none
  | some v => some (roundTo2 ((v : ℚ) / 1073741824))

/-- Modelled from the spec's words (for comparison with `packageOf`): the
first non-zero value among the traffic fields taken in order, where an
absent field is passed over like a zero one. -/
def firstNonzero : List (Option Int) → Option Int
  | [] => none
  | none :: rest => firstNonzero rest
  | some v :: rest => if v = 0 then firstNonzero rest else some v

def firstNonzeroSpec (t : TrafficFields) : Option Int :=
  firstNonzero [t.stra, t.mtra, t.dtra, t.ytra, t.extraTraffic]

theorem sqlCoalesce_nullif0 (xs : List (Option Int)) :
    sqlCoalesce (xs.map nullif0) = firstNonzero xs := by
  induction xs with
  | nil => rfl
  | cons x rest ih =>
    cases x with
    | none => simpa [nullif0, sqlCoalesce, firstNonzero] using ih
    | some v =>
      by_cases hv : v = 0 <;>
        simp [nullif0, sqlCoalesce, firstNonzero, hv, ih]

theorem firstNonzero_eq_none_iff (xs : List (Option Int)) :
    firstNonzero xs = none ↔ ∀ x ∈ xs, x.getD 0 = 0 := by
  induction xs with
  | nil => simp [firstNonzero]
  | cons x rest ih =>
    cases x with
    | none => simp [firstNonzero, ih]
    | some v =>
      by_cases hv : v = 0 <;> simp [firstNonzero, hv, ih]

/-! ## Ordering machinery for the warehouse sort

The pandas `sort_values(by=[...], ascending=[...], na_position='last')`
call and the BigQuery `ORDER BY` clause are modelled as insertion sort by
a boolean `le` derived from a three-way comparison; the comparison is a
lexicographic `Ordering.then` chain over nullable columns. -/

/-- Reversed comparison (a descending sort column). -/
def cmpRev {α : Type} (c : α → α → Ordering) (a b : α) : Ordering := c b a

/-- Nullable comparison, nulls last (pandas `na_position='last'`). -/
def cmpOptNL {α : Type} (c : α → α → Ordering) : Option α → Option α → Ordering
  | none, none => .eq
  | none, some _ => .gt
  | some _, none => .lt
  | some a, some b => c a b

/-- Nullable comparison, nulls first (BigQuery `ASC`). -/
def cmpOptNF {α : Type} (c : α → α → Ordering) : Option α → Option α → Ordering
  | none, none => .eq
  | none, some _ => .lt
  | some _, none => .gt
  | some a, some b => c a b

def ordLe : Ordering → Bool
  | .gt => false
  | _ => true

/-- The laws a sort comparison satisfies: antisymmetric orientation and
transitivity of its strict and equal parts. -/
structure LawCmp {α : Type} (c : α → α → Ordering) : Prop where
  symm_lt : ∀ a b, c a b = .lt ↔ c b a = .gt
  symm_eq : ∀ a b, c a b = .eq ↔ c b a = .eq
  trans_lt : ∀ a b d, c a b = .lt → c b d = .lt → c a d = .lt
  trans_eq : ∀ a b d, c a b = .eq → c b d = .eq → c a d = .eq
  lt_of_lt_eq : ∀ a b d, c a b = .lt → c b d = .eq → c a d = .lt
  lt_of_eq_lt : ∀ a b d, c a b = .eq → c b d = .lt → c a d = .lt

theorem lawCmp_compare {α : Type} [LinearOrder α] :
    LawCmp (fun a b : α => compare a b) where
  symm_lt a b := by simp [compare_lt_iff_lt, compare_gt_iff_gt]
  symm_eq a b := by
    rw [compare_eq_iff_eq, compare_eq_iff_eq]
    exact eq_comm
  trans_lt a b d h₁ h₂ := by
    rw [compare_lt_iff_lt] at *
    exact lt_trans h₁ h₂
  trans_eq a b d h₁ h₂ := by
    rw [compare_eq_iff_eq] at *
    exact h₁.trans h₂
  lt_of_lt_eq a b d h₁ h₂ := by
    rw [compare_lt_iff_lt] at *
    rw [compare_eq_iff_eq] at h₂
    exact h₂ ▸ h₁
  lt_of_eq_lt a b d h₁ h₂ := by
    rw [compare_lt_iff_lt] at *
    rw [compare_eq_iff_eq] at h₁
    exact h₁ ▸ h₂

theorem LawCmp.rev {α : Type} {c : α → α → Ordering} (h : LawCmp c) :
    LawCmp (cmpRev c) where
  symm_lt a b := h.symm_lt b a
  symm_eq a b := h.symm_eq b a
  trans_lt a b d h₁ h₂ := h.trans_lt d b a h₂ h₁
  trans_eq a b d h₁ h₂ := h.trans_eq d b a h₂ h₁
  lt_of_lt_eq a b d h₁ h₂ := h.lt_of_eq_lt d b a h₂ h₁
  lt_of_eq_lt a b d h₁ h₂ := h.lt_of_lt_eq d b a h₂ h₁

theorem LawCmp.optNL {α : Type} {c : α → α → Ordering} (h : LawCmp c) :
    LawCmp (cmpOptNL c) where
  symm_lt a b := by
    cases a <;> cases b <;> simp [cmpOptNL, h.symm_lt]
  symm_eq a b := by
    cases a <;> cases b <;> simp [cmpOptNL, h.symm_eq]
  trans_lt a b d h₁ h₂ := by
    cases a <;> cases b <;> cases d <;>
      simp_all [cmpOptNL]
    exact h.trans_lt _ _ _ h₁ h₂
  trans_eq a b d h₁ h₂ := by
    cases a <;> cases b <;> cases d <;>
      simp_all [cmpOptNL]
    exact h.trans_eq _ _ _ h₁ h₂
  lt_of_lt_eq a b d h₁ h₂ := by
    cases a <;> cases b <;> cases d <;>
      simp_all [cmpOptNL]
    exact h.lt_of_lt_eq _ _ _ h₁ h₂
  lt_of_eq_lt a b d h₁ h₂ := by
    cases a <;> cases b <;> cases d <;>
      simp_all [cmpOptNL]
    exact h.lt_of_eq_lt _ _ _ h₁ h₂

theorem LawCmp.optNF {α : Type} {c : α → α → Ordering} (h : LawCmp c) :
    LawCmp (cmpOptNF c) where
  symm_lt a b := by
    cases a <;> cases b <;> simp [cmpOptNF, h.symm_lt]
  symm_eq a b := by
    cases a <;> cases b <;> simp [cmpOptNF, h.symm_eq]
  trans_lt a b d h₁ h₂ := by
    cases a <;> cases b <;> cases d <;>
      simp_all [cmpOptNF]
    exact h.trans_lt _ _ _ h₁ h₂
  trans_eq a b d h₁ h₂ := by
    cases a <;> cases b <;> cases d <;>
      simp_all [cmpOptNF]
    exact h.trans_eq _ _ _ h₁ h₂
  lt_of_lt_eq a b d h₁ h₂ := by
    cases a <;> cases b <;> cases d <;>
      simp_all [cmpOptNF]
    exact h.lt_of_lt_eq _ _ _ h₁ h₂
  lt_of_eq_lt a b d h₁ h₂ := by
    cases a <;> cases b <;> cases d <;>
      simp_all [cmpOptNF]
    exact h.lt_of_eq_lt _ _ _ h₁ h₂

theorem then_eq_lt {o₁ o₂ : Ordering} :
    o₁.then o₂ = .lt ↔ o₁ = .lt ∨ (o₁ = .eq ∧ o₂ = .lt) := by
  cases o₁ <;> simp [Ordering.then]

theorem then_eq_eq {o₁ o₂ : Ordering} :
    o₁.then o₂ = .eq ↔ o₁ = .eq ∧ o₂ = .eq := by
  cases o₁ <;> simp [Ordering.then]

theorem then_eq_gt {o₁ o₂ : Ordering} :
    o₁.then o₂ = .gt ↔ o₁ = .gt ∨ (o₁ = .eq ∧ o₂ = .gt) := by
  cases o₁ <;> simp [Ordering.then]

theorem LawCmp.lexThen {α : Type} {c₁ c₂ : α → α → Ordering}
    (h₁ : LawCmp c₁) (h₂ : LawCmp c₂) :
    LawCmp (fun a b => (c₁ a b).then (c₂ a b)) where
  symm_lt a b := by
    constructor
    · intro hab
      rcases then_eq_lt.mp hab with h | ⟨h, h'⟩
      · exact then_eq_gt.mpr (.inl ((h₁.symm_lt a b).mp h))
      · exact then_eq_gt.mpr (.inr ⟨(h₁.symm_eq a b).mp h, (h₂.symm_lt a b).mp h'⟩)
    · intro hba
      rcases then_eq_gt.mp hba with h | ⟨h, h'⟩
      · exact then_eq_lt.mpr (.inl ((h₁.symm_lt a b).mpr h))
      · exact then_eq_lt.mpr (.inr ⟨(h₁.symm_eq b a).mp h, (h₂.symm_lt a b).mpr h'⟩)
  symm_eq a b := by
    constructor
    · intro hab
      obtain ⟨h, h'⟩ := then_eq_eq.mp hab
      exact then_eq_eq.mpr ⟨(h₁.symm_eq a b).mp h, (h₂.symm_eq a b).mp h'⟩
    · intro hba
      obtain ⟨h, h'⟩ := then_eq_eq.mp hba
      exact then_eq_eq.mpr ⟨(h₁.symm_eq b a).mp h, (h₂.symm_eq b a).mp h'⟩
  trans_lt a b d hab hbd := by
    rcases then_eq_lt.mp hab with h | ⟨h, h'⟩ <;>
      rcases then_eq_lt.mp hbd with g | ⟨g, g'⟩
    · exact then_eq_lt.mpr (.inl (h₁.trans_lt a b d h g))
    · exact then_eq_lt.mpr (.inl (h₁.lt_of_lt_eq a b d h g))
    · exact then_eq_lt.mpr (.inl (h₁.lt_of_eq_lt a b d h g))
    · exact then_eq_lt.mpr (.inr ⟨h₁.trans_eq a b d h g, h₂.trans_lt a b d h' g'⟩)
  trans_eq a b d hab hbd := by
    obtain ⟨h, h'⟩ := then_eq_eq.mp hab
    obtain ⟨g, g'⟩ := then_eq_eq.mp hbd
    exact then_eq_eq.mpr ⟨h₁.trans_eq a b d h g, h₂.trans_eq a b d h' g'⟩
  lt_of_lt_eq a b d hab hbd := by
    obtain ⟨g, g'⟩ := then_eq_eq.mp hbd
    rcases then_eq_lt.mp hab with h | ⟨h, h'⟩
    · exact then_eq_lt.mpr (.inl (h₁.lt_of_lt_eq a b d h g))
    · exact then_eq_lt.mpr (.inr ⟨h₁.trans_eq a b d h g, h₂.lt_of_lt_eq a b d h' g'⟩)
  lt_of_eq_lt a b d hab hbd := by
    obtain ⟨h, h'⟩ := then_eq_eq.mp hab
    rcases then_eq_lt.mp hbd with g | ⟨g, g'⟩
    · exact then_eq_lt.mpr (.inl (h₁.lt_of_eq_lt a b d h g))
    · exact then_eq_lt.mpr (.inr ⟨h₁.trans_eq a b d h g, h₂.lt_of_eq_lt a b d h' g'⟩)

theorem ordLe_eq_true {o : Ordering} : ordLe o = true ↔ o ≠ .gt := by
  cases o <;> simp [ordLe]

theorem LawCmp.le_total {α : Type} {c : α → α → Ordering} (h : LawCmp c)
    (a b : α) : ordLe (c a b) = true ∨ ordLe (c b a) = true := by
  cases hab : c a b
  · exact .inl rfl
  · exact .inl rfl
  · have : c b a = .lt := (h.symm_lt b a).mpr hab
    exact .inr (by simp [ordLe, this])

theorem LawCmp.le_trans {α : Type} {c : α → α → Ordering} (h : LawCmp c)
    (a b d : α) (hab : ordLe (c a b) = true) (hbd : ordLe (c b d) = true) :
    ordLe (c a d) = true := by
  rw [ordLe_eq_true] at hab hbd ⊢
  cases hcab : c a b with
  | lt =>
    cases hcbd : c b d with
    | lt => simp [h.trans_lt a b d hcab hcbd]
    | eq => simp [h.lt_of_lt_eq a b d hcab hcbd]
    | gt => exact absurd hcbd hbd
  | eq =>
    cases hcbd : c b d with
    | lt => simp [h.lt_of_eq_lt a b d hcab hcbd]
    | eq => simp [h.trans_eq a b d hcab hcbd]
    | gt => exact absurd hcbd hbd
  | gt => exact absurd hcab hab

theorem LawCmp.comap {α β : Type} {c : α → α → Ordering} (h : LawCmp c)
    (f : β → α) : LawCmp (fun x y => c (f x) (f y)) where
  symm_lt a b := h.symm_lt (f a) (f b)
  symm_eq a b := h.symm_eq (f a) (f b)
  trans_lt a b d := h.trans_lt (f a) (f b) (f d)
  trans_eq a b d := h.trans_eq (f a) (f b) (f d)
  lt_of_lt_eq a b d := h.lt_of_lt_eq (f a) (f b) (f d)
  lt_of_eq_lt a b d := h.lt_of_eq_lt (f a) (f b) (f d)

/-- Three-way comparison of a linearly ordered column value. -/
def cmpO {α : Type} [LinearOrder α] (a b : α) : Ordering :=
  if a < b then .lt else if a = b then .eq else .gt

theorem cmpO_eq_lt {α : Type} [LinearOrder α] {a b : α} :
    cmpO a b = .lt ↔ a < b := by
  unfold cmpO
  split_ifs with h₁ h₂ <;> simp_all

theorem cmpO_eq_eq {α : Type} [LinearOrder α] {a b : α} :
    cmpO a b = .eq ↔ a = b := by
  unfold cmpO
  split_ifs with h₁ h₂ <;> simp_all
  exact ne_of_lt h₁

theorem cmpO_eq_gt {α : Type} [LinearOrder α] {a b : α} :
    cmpO a b = .gt ↔ b < a := by
  unfold cmpO
  split_ifs with h₁ h₂
  · exact iff_of_false (by decide) (not_lt.mpr h₁.le)
  · exact iff_of_false (by decide) (by rw [h₂]; exact lt_irrefl b)
  · exact iff_of_true rfl (lt_of_le_of_ne (not_lt.mp h₁) (Ne.symm h₂))

theorem lawCmpO {α : Type} [LinearOrder α] : LawCmp (cmpO (α := α)) where
  symm_lt a b := by rw [cmpO_eq_lt, cmpO_eq_gt]
  symm_eq a b := by
    rw [cmpO_eq_eq, cmpO_eq_eq]
    exact eq_comm
  trans_lt a b d h₁ h₂ := by
    rw [cmpO_eq_lt] at *
    exact lt_trans h₁ h₂
  trans_eq a b d h₁ h₂ := by
    rw [cmpO_eq_eq] at *
    exact h₁.trans h₂
  lt_of_lt_eq a b d h₁ h₂ := by
    rw [cmpO_eq_eq] at h₂
    rw [cmpO_eq_lt] at *
    exact h₂ ▸ h₁
  lt_of_eq_lt a b d h₁ h₂ := by
    rw [cmpO_eq_eq] at h₁
    rw [cmpO_eq_lt] at *
    exact h₁ ▸ h₂

/-- Lexicographic three-way comparison of strings by character code
(Python / pandas string comparison), structurally over the character
lists. -/
def cmpCharList : List Char → List Char → Ordering
  | [], [] => .eq
  | [], _ :: _ => .lt
  | _ :: _, [] => .gt
  | a :: as, b :: bs => (cmpO a b).then (cmpCharList as bs)

def strCmp (a b : String) : Ordering := cmpCharList a.data b.data

theorem cmpCharList_symm_lt :
    ∀ as bs, cmpCharList as bs = .lt ↔ cmpCharList bs as = .gt := by
  intro as
  induction as with
  | nil => intro bs; cases bs <;> simp [cmpCharList]
  | cons a as ih =>
    intro bs
    cases bs with
    | nil => simp [cmpCharList]
    | cons b bs =>
      simp only [cmpCharList, then_eq_lt, then_eq_gt]
      constructor
      · rintro (h | ⟨h, h'⟩)
        · exact .inl ((lawCmpO.symm_lt a b).mp h)
        · exact .inr ⟨(lawCmpO.symm_eq a b).mp h, (ih bs).mp h'⟩
      · rintro (h | ⟨h, h'⟩)
        · exact .inl ((lawCmpO.symm_lt a b).mpr h)
        · exact .inr ⟨(lawCmpO.symm_eq b a).mp h, (ih bs).mpr h'⟩

theorem cmpCharList_symm_eq :
    ∀ as bs, cmpCharList as bs = .eq ↔ cmpCharList bs as = .eq := by
  intro as
  induction as with
  | nil => intro bs; cases bs <;> simp [cmpCharList]
  | cons a as ih =>
    intro bs
    cases bs with
    | nil => simp [cmpCharList]
    | cons b bs =>
      simp only [cmpCharList, then_eq_eq]
      constructor
      · rintro ⟨h, h'⟩
        exact ⟨(lawCmpO.symm_eq a b).mp h, (ih bs).mp h'⟩
      · rintro ⟨h, h'⟩
        exact ⟨(lawCmpO.symm_eq b a).mp h, (ih bs).mpr h'⟩

theorem cmpCharList_trans_lt :
    ∀ as bs ds, cmpCharList as bs = .lt → cmpCharList bs ds = .lt →
      cmpCharList as ds = .lt := by
  intro as
  induction as with
  | nil =>
    intro bs ds h₁ h₂
    cases bs with
    | nil => exact absurd h₁ (by simp [cmpCharList])
    | cons b bs =>
      cases ds with
      | nil => exact absurd h₂ (by simp [cmpCharList])
      | cons d ds => simp [cmpCharList]
  | cons a as ih =>
    intro bs ds h₁ h₂
    cases bs with
    | nil => exact absurd h₁ (by simp [cmpCharList])
    | cons b bs =>
      cases ds with
      | nil => exact absurd h₂ (by simp [cmpCharList])
      | cons d ds =>
        simp only [cmpCharList, then_eq_lt] at *
        rcases h₁ with h | ⟨h, h'⟩ <;> rcases h₂ with g | ⟨g, g'⟩
        · exact .inl (lawCmpO.trans_lt a b d h g)
        · exact .inl (lawCmpO.lt_of_lt_eq a b d h g)
        · exact .inl (lawCmpO.lt_of_eq_lt a b d h g)
        · exact .inr ⟨lawCmpO.trans_eq a b d h g, ih bs ds h' g'⟩

theorem cmpCharList_trans_eq :
    ∀ as bs ds, cmpCharList as bs = .eq → cmpCharList bs ds = .eq →
      cmpCharList as ds = .eq := by
  intro as
  induction as with
  | nil =>
    intro bs ds h₁ h₂
    cases bs with
    | nil => exact h₂
    | cons b bs => exact absurd h₁ (by simp [cmpCharList])
  | cons a as ih =>
    intro bs ds h₁ h₂
    cases bs with
    | nil => exact absurd h₁ (by simp [cmpCharList])
    | cons b bs =>
      cases ds with
      | nil => exact absurd h₂ (by simp [cmpCharList])
      | cons d ds =>
        simp only [cmpCharList, then_eq_eq] at *
        exact ⟨lawCmpO.trans_eq a b d h₁.1 h₂.1, ih bs ds h₁.2 h₂.2⟩

theorem cmpCharList_lt_of_lt_eq :
    ∀ as bs ds, cmpCharList as bs = .lt → cmpCharList bs ds = .eq →
      cmpCharList as ds = .lt := by
  intro as
  induction as with
  | nil =>
    intro bs ds h₁ h₂
    cases bs with
    | nil => exact absurd h₁ (by simp [cmpCharList])
    | cons b bs =>
      cases ds with
      | nil => exact absurd h₂ (by simp [cmpCharList])
      | cons d ds => simp [cmpCharList]
  | cons a as ih =>
    intro bs ds h₁ h₂
    cases bs with
    | nil => exact absurd h₁ (by simp [cmpCharList])
    | cons b bs =>
      cases ds with
      | nil => exact absurd h₂ (by simp [cmpCharList])
      | cons d ds =>
        simp only [cmpCharList, then_eq_lt, then_eq_eq] at *
        rcases h₁ with h | ⟨h, h'⟩
        · exact .inl (lawCmpO.lt_of_lt_eq a b d h h₂.1)
        · exact .inr ⟨lawCmpO.trans_eq a b d h h₂.1, ih bs ds h' h₂.2⟩

theorem cmpCharList_lt_of_eq_lt :
    ∀ as bs ds, cmpCharList as bs = .eq → cmpCharList bs ds = .lt →
      cmpCharList as ds = .lt := by
  intro as
  induction as with
  | nil =>
    intro bs ds h₁ h₂
    cases bs with
    | nil => exact h₂
    | cons b bs => exact absurd h₁ (by simp [cmpCharList])
  | cons a as ih =>
    intro bs ds h₁ h₂
    cases bs with
    | nil => exact absurd h₁ (by simp [cmpCharList])
    | cons b bs =>
      cases ds with
      | nil => exact absurd h₂ (by simp [cmpCharList])
      | cons d ds =>
        simp only [cmpCharList, then_eq_eq, then_eq_lt] at *
        rcases h₂ with g | ⟨g, g'⟩
        · exact .inl (lawCmpO.lt_of_eq_lt a b d h₁.1 g)
        · exact .inr ⟨lawCmpO.trans_eq a b d h₁.1 g, ih bs ds h₁.2 g'⟩

theorem lawCmpCharList : LawCmp cmpCharList where
  symm_lt := cmpCharList_symm_lt
  symm_eq := cmpCharList_symm_eq
  trans_lt := cmpCharList_trans_lt
  trans_eq := cmpCharList_trans_eq
  lt_of_lt_eq := cmpCharList_lt_of_lt_eq
  lt_of_eq_lt := cmpCharList_lt_of_eq_lt

theorem lawStrCmp : LawCmp strCmp := lawCmpCharList.comap String.data

/-! ## Stable insertion sort (the embedding of `DataFrame.sort_values`) -/

def insertSorted {α : Type} (le : α → α → Bool) (a : α) : List α → List α
  | [] => [a]
  | b :: t => if le a b then a :: b :: t else b :: insertSorted le a t

def sortByLE {α : Type} (le : α → α → Bool) : List α → List α
  | [] => []
  | a :: t => insertSorted le a (sortByLE le t)

theorem insertSorted_perm {α : Type} (le : α → α → Bool) (a : α) (l : List α) :
    List.Perm (insertSorted le a l) (a :: l) := by
  induction l with
  | nil => exact .refl _
  | cons b t ih =>
    by_cases h : le a b
    · simp [insertSorted, h]
    · simp only [insertSorted, h, if_neg, Bool.false_eq_true, if_false]
      exact (ih.cons b).trans (List.Perm.swap a b t)

theorem sortByLE_perm {α : Type} (le : α → α → Bool) (l : List α) :
    List.Perm (sortByLE le l) l := by
  induction l with
  | nil => exact .refl _
  | cons a t ih =>
    exact (insertSorted_perm le a (sortByLE le t)).trans (ih.cons a)

theorem mem_insertSorted {α : Type} {le : α → α → Bool} {a x : α} {l : List α} :
    x ∈ insertSorted le a l ↔ x = a ∨ x ∈ l := by
  rw [(insertSorted_perm le a l).mem_iff]
  simp

theorem insertSorted_pairwise {α : Type} {le : α → α → Bool}
    (total : ∀ a b, le a b = true ∨ le b a = true)
    (htrans : ∀ a b d, le a b = true → le b d = true → le a d = true)
    (a : α) {l : List α} (hl : l.Pairwise (fun x y => le x y = true)) :
    (insertSorted le a l).Pairwise (fun x y => le x y = true) := by
  induction l with
  | nil => simp [insertSorted]
  | cons b t ih =>
    rw [List.pairwise_cons] at hl
    obtain ⟨hb, ht⟩ := hl
    by_cases h : le a b
    · simp only [insertSorted, h, if_true]
      refine List.Pairwise.cons ?_ (List.Pairwise.cons hb ht)
      intro x hx
      rcases List.mem_cons.mp hx with rfl | hx
      · exact h
      · exact htrans a b x h (hb x hx)
    · simp only [insertSorted, h, Bool.false_eq_true, if_false]
      refine List.Pairwise.cons ?_ (ih ht)
      intro x hx
      rcases mem_insertSorted.mp hx with h' | hx
      · rw [h']
        exact (total a b).resolve_left (by simpa using h)
      · exact hb x hx

theorem sortByLE_pairwise {α : Type} {le : α → α → Bool}
    (total : ∀ a b, le a b = true ∨ le b a = true)
    (htrans : ∀ a b d, le a b = true → le b d = true → le a d = true)
    (l : List α) : (sortByLE le l).Pairwise (fun x y => le x y = true) := by
  induction l with
  | nil => simp [sortByLE]
  | cons a t ih => exact insertSorted_pairwise total htrans a ih

/-! ## Warehouse fact rows and the stage-and-swap pipeline
(`reports/sync.py`, `sync_maria_to_bigquery`;
`management/commands/sync_report_user_service_since.py`, `Command.handle`) -/

/-- One fetched fact row (the fact query's columns, before the positional
`id` is assigned).  `rs_name` is overwritten with the source's name by
`_fetch_maria_rows`, hence not nullable. -/
structure FactRow where
  createDate : Option Int
  rs_userid : Option Int
  rs_username : Option String
  rs_name : String
  userServiceID : Option Int
  username : Option String
  serviceName : Option String
  servicePrice : Option ℚ
  package : Option ℚ
  serviceStatus : Option String
  startDate : Option Int
  endDate : Option Int
deriving Repr, DecidableEq

/-- The sort key the code uses:
`sort_values(by=['rs_username', 'UserServiceID', 'CreateDate'],
ascending=[True, True, False], na_position='last')`. -/
def factCmpCode (a b : FactRow) : Ordering :=
  (cmpOptNL strCmp a.rs_username b.rs_username).then
    ((cmpOptNL cmpO a.userServiceID b.userServiceID).then
      (cmpOptNL (cmpRev cmpO) a.createDate b.createDate))

def factLECode (a b : FactRow) : Bool := ordLe (factCmpCode a b)

/-- Modelled from the claim's words (for comparison with `factCmpCode`):
the key (username ascending, UserServiceID ascending, CreateDate
descending, nulls last), i.e. the end-user `username` column in the first
position. -/
def factCmpClaim (a b : FactRow) : Ordering :=
  (cmpOptNL strCmp a.username b.username).then
    ((cmpOptNL cmpO a.userServiceID b.userServiceID).then
      (cmpOptNL (cmpRev cmpO) a.createDate b.createDate))

def factLEClaim (a b : FactRow) : Bool := ordLe (factCmpClaim a b)

theorem lawFactCmpCode : LawCmp factCmpCode :=
  (((lawStrCmp.optNL).comap FactRow.rs_username).lexThen
    ((((lawCmpO (α := Int)).optNL).comap FactRow.userServiceID).lexThen
      ((((lawCmpO (α := Int)).rev).optNL).comap FactRow.createDate)))

/-- `df.sort_values(...)` over the concatenated frame. -/
def sortFactRows (rows : List FactRow) : List FactRow :=
  sortByLE factLECode rows

/-- `df['id'] = range(1, len(df) + 1)` after `reset_index`. -/
def assignIds (rows : List FactRow) : List (Nat × FactRow) :=
  (List.range' 1 rows.length).zip rows

/-- Lines 275–305 of `sync_maria_to_bigquery` (identical in the windowed
command): concatenate the per-source frames, sort, and assign the dense
1-based `id`. -/
def syncPrepare (dfs : List (List FactRow)) : List (Nat × FactRow) :=
  assignIds (sortFactRows dfs.flatten)

theorem assignIds_map_snd (rows : List FactRow) :
    (assignIds rows).map Prod.snd = rows := by
  unfold assignIds
  exact List.map_snd_zip _ _ (by simp)

theorem assignIds_map_fst (rows : List FactRow) :
    (assignIds rows).map Prod.fst = List.range' 1 rows.length := by
  unfold assignIds
  exact List.map_fst_zip _ _ (by simp)

/-- The result of fetching one source: the rows, or the raised exception. -/
inductive FetchResult
  | ok (rows : List FactRow)
  | err (msg : String)
deriving Repr, DecidableEq

/-- The structured events `sync_maria_to_bigquery` appends via
`log_sync_event`. -/
inductive WEvent
  | syncStart
  | sourceStart (source : String)
  | sourceSuccess (source : String) (rows : Nat)
  | sourceError (source : String) (error : String)
  | syncNoData
  | syncLoaded (rows : Nat)
deriving Repr, DecidableEq

/-- The per-source try/except loop of `sync_maria_to_bigquery`: each source
logs `source_start` then `source_success` or `source_error`; an error is
swallowed (the loop continues). -/
def sourceLoopEvents : List (String × FetchResult) → List WEvent
  | [] => []
  | (n, r) :: rest =>
    WEvent.sourceStart n ::
      (match r with
       | .ok rows => WEvent.sourceSuccess n rows.length
       | .err m => WEvent.sourceError n m) :: sourceLoopEvents rest

/-- `all_dfs`: the successfully fetched non-empty frames, in source order. -/
def collectDfs : List (String × FetchResult) → List (List FactRow)
  | [] => []
  | (_, .ok rows) :: rest =>
    if rows.isEmpty then collectDfs rest else rows :: collectDfs rest
  | (_, .err _) :: rest => collectDfs rest

/-- `sync_maria_to_bigquery` (the full/auto sync), given the per-source
fetch outcomes: returns (the row count returned, the logged events, the
frame loaded into the warehouse or `none` when nothing was written). -/
def sync_maria_to_bigquery (results : List (String × FetchResult)) :
    Nat × List WEvent × Option (List (Nat × FactRow)) :=
  let evs := WEvent.syncStart :: sourceLoopEvents results
  let dfs := collectDfs results
  if dfs.isEmpty then (0, evs ++ [WEvent.syncNoData], none)
  else
    let out := syncPrepare dfs
    (out.length, evs ++ [WEvent.syncLoaded out.length], some out)

/-- The events of the windowed command (`window_*` log events). -/
inductive WindowEvent
  | windowSyncStart
  | windowSourceSuccess (source : String) (rows : Nat)
  | windowSourceError (source : String) (error : String)
  | windowSyncNoData
  | windowSyncSuccess (rows : Nat)
deriving Repr, DecidableEq

/-- The delete+insert the windowed command issues against the target:
delete the [start, end] window (open-ended when `endDate = none`), insert
the staged rows. -/
structure WindowWrite where
  startDate : String
  endDate : Option String
  staged : List (Nat × FactRow)
deriving Repr, DecidableEq

def windowLoopEvents : List (String × FetchResult) → List WindowEvent
  | [] => []
  | (n, r) :: rest =>
    (match r with
     | .ok rows => WindowEvent.windowSourceSuccess n rows.length
     | .err m => WindowEvent.windowSourceError n m) :: windowLoopEvents rest

/-- `Command.handle` of `sync_report_user_service_since` after argument
validation, given the per-source fetch outcomes: the logged events and the
atomic delete+insert issued, `none` when the command returned without
writing. -/
def window_sync_handle (startDate : String) (endDate : Option String)
    (results : List (String × FetchResult)) :
    List WindowEvent × Option WindowWrite :=
  let evs := WindowEvent.windowSyncStart :: windowLoopEvents results
  let dfs := collectDfs results
  if dfs.isEmpty then (evs ++ [WindowEvent.windowSyncNoData], none)
  else
    let out := syncPrepare dfs
    (evs ++ [WindowEvent.windowSyncSuccess out.length],
     some { startDate := startDate, endDate := endDate, staged := out })

/-- A per-source outcome that contributes no data: the fetch raised, or it
returned an empty frame. -/
def noDataOutcome (p : String × FetchResult) : Prop :=
  match p.2 with
  | .ok rows => rows = []
  | .err _ => True

theorem collectDfs_eq_nil {results : List (String × FetchResult)}
    (h : ∀ p ∈ results, noDataOutcome p) : collectDfs results = [] := by
  induction results with
  | nil => rfl
  | cons p rest ih =>
    obtain ⟨n, r⟩ := p
    cases r with
    | ok rows =>
      have hrows : rows = [] := h (n, .ok rows) (List.mem_cons_self _ _)
      subst hrows
      simpa [collectDfs] using ih (fun q hq => h q (List.mem_cons_of_mem _ hq))
    | err m =>
      simpa [collectDfs] using ih (fun q hq => h q (List.mem_cons_of_mem _ hq))

theorem sourceError_mem_loopEvents {results : List (String × FetchResult)}
    {n m : String} (h : (n, FetchResult.err m) ∈ results) :
    WEvent.sourceError n m ∈ sourceLoopEvents results := by
  induction results with
  | nil => simp at h
  | cons p rest ih =>
    obtain ⟨pn, pr⟩ := p
    rcases List.mem_cons.mp h with hh | hh
    · injection hh with h1 h2
      subst h1
      subst h2
      exact List.mem_cons_of_mem _ (List.mem_cons_self _ _)
    · cases pr <;> exact
        List.mem_cons_of_mem _ (List.mem_cons_of_mem _ (ih hh))

theorem sourceSuccess_mem_loopEvents {results : List (String × FetchResult)}
    {n : String} {rows : List FactRow} (h : (n, FetchResult.ok rows) ∈ results) :
    WEvent.sourceSuccess n rows.length ∈ sourceLoopEvents results := by
  induction results with
  | nil => simp at h
  | cons p rest ih =>
    obtain ⟨pn, pr⟩ := p
    rcases List.mem_cons.mp h with hh | hh
    · injection hh with h1 h2
      subst h1
      subst h2
      exact List.mem_cons_of_mem _ (List.mem_cons_self _ _)
    · cases pr <;> exact
        List.mem_cons_of_mem _ (List.mem_cons_of_mem _ (ih hh))

theorem windowError_mem_loopEvents {results : List (String × FetchResult)}
    {n m : String} (h : (n, FetchResult.err m) ∈ results) :
    WindowEvent.windowSourceError n m ∈ windowLoopEvents results := by
  induction results with
  | nil => simp at h
  | cons p rest ih =>
    obtain ⟨pn, pr⟩ := p
    rcases List.mem_cons.mp h with hh | hh
    · injection hh with h1 h2
      subst h1
      subst h2
      exact List.mem_cons_self _ _
    · cases pr <;> exact List.mem_cons_of_mem _ (ih hh)

theorem windowSuccess_mem_loopEvents {results : List (String × FetchResult)}
    {n : String} {rows : List FactRow} (h : (n, FetchResult.ok rows) ∈ results) :
    WindowEvent.windowSourceSuccess n rows.length ∈ windowLoopEvents results := by
  induction results with
  | nil => simp at h
  | cons p rest ih =>
    obtain ⟨pn, pr⟩ := p
    rcases List.mem_cons.mp h with hh | hh
    · injection hh with h1 h2
      subst h1
      subst h2
      exact List.mem_cons_self _ _
    · cases pr <;> exact List.mem_cons_of_mem _ (ih hh)

/-! ## Concrete fact rows for the claims about the sort key -/

/-- End-user "alice" whose reseller sorts late. -/
def c2RowA : FactRow :=
  { createDate := some 5, rs_userid := some 1, rs_username := some "zzz",
    rs_name := "s1", userServiceID := some 1, username := some "alice",
    serviceName := none, servicePrice := none, package := none,
    serviceStatus := none, startDate := none, endDate := none }

/-- End-user "bob" whose reseller sorts early. -/
def c2RowB : FactRow :=
  { createDate := some 3, rs_userid := some 2, rs_username := some "aaa",
    rs_name := "s2", userServiceID := some 2, username := some "bob",
    serviceName := none, servicePrice := none, package := none,
    serviceStatus := none, startDate := none, endDate := none }

/-- Reseller "bob", UserServiceID 1, the OLDER CreateDate. -/
def c2BobSvc1 : FactRow :=
  { createDate := some 1, rs_userid := some 1, rs_username := some "bob",
    rs_name := "s1", userServiceID := some 1, username := some "u1",
    serviceName := none, servicePrice := none, package := none,
    serviceStatus := none, startDate := none, endDate := none }

/-- Reseller "bob", UserServiceID 2, the NEWER CreateDate. -/
def c2BobSvc2 : FactRow :=
  { createDate := some 9, rs_userid := some 1, rs_username := some "bob",
    rs_name := "s1", userServiceID := some 2, username := some "u2",
    serviceName := none, servicePrice := none, package := none,
    serviceStatus := none, startDate := none, endDate := none }

/-- The spec's worked Package example: `DTrA` is ten GiB, the rest zero
or absent. -/
def c7Traffic : TrafficFields :=
  { stra := some 0, mtra := some 0, dtra := some 10737418240,
    ytra := some 0, extraTraffic := none }

/-- All five traffic fields zero. -/
def c7AllZero : TrafficFields :=
  { stra := some 0, mtra := some 0, dtra := some 0,
    ytra := some 0, extraTraffic := some 0 }

/-- A one-row frame for concrete warehouse-sync runs. -/
def c4Row : FactRow :=
  { createDate := some 7, rs_userid := some 3, rs_username := some "r1",
    rs_name := "s2", userServiceID := some 11, username := some "u",
    serviceName := some "svc", servicePrice := some 10, package := some 5,
    serviceStatus := some "Enable", startDate := none, endDate := none }

/-! ## Claim theorems: source registry, package, warehouse sort, fault isolation -/

theorem parseItems_congr {l₁ l₂ : List String}
    (h : parseItems l₁ = parseItems l₂) (p : String) :
    parseItems (p :: l₁) = parseItems (p :: l₂) := by
  simp only [parseItems]
  split
  · exact h
  · split
    · exact h
    · split
      · rfl
      · rw [h]

/-- C3 (counterexample): on the descriptor `"a,b;c,d"` — every record
malformed — `_parse_sources` does NOT return an empty list: it falls back
to the single-source environment variables and returns that one source.
On the 6-field record `"n,h,notanumber,db,u,p"` it raises `ValueError`
rather than returning anything. -/
theorem source_registry_claim_counterexample :
    parseSources (envOnlySources "a,b;c,d") =
      .ok [{ name := "default", host := "localhost", port := 3306,
             db := "", user := "root", password := "" }]
    ∧ parseSources (envOnlySources "a,b;c,d") ≠ .ok []
    ∧ parseSources (envOnlySources "n,h,notanumber,db,u,p") = .error "ValueError" := by
  refine ⟨rfl, ?_, rfl⟩
  intro h
  have h1 : parseSources (envOnlySources "a,b;c,d") =
      .ok [{ name := "default", host := "localhost", port := 3306,
             db := "", user := "root", password := "" }] := rfl
  rw [h1] at h
  simp at h

/-- C3 (amended): the source-registry parser silently skips any
multi-source record with fewer than 6 comma-separated fields; when every
record of the descriptor is skipped it falls back to the single-source
environment variables (a one-element list, never an empty list); and a
record with at least 6 fields whose port field is not an integer raises
`ValueError` instead of being skipped. -/
theorem source_registry_amended :
    (∀ item rest, ((pySplit ',' (pyStrip item)).map pyStrip).length < 6 →
        parseItems (item :: rest) = parseItems rest)
    ∧ (∀ env : Env,
        parseItems (pySplit ';' (pyStrip (env.maria_sources.getD ""))) = .ok [] →
        parseSources env = (fallbackSource env).map (fun s => [s]))
    ∧ (∀ item rest, pyStrip item ≠ "" →
        ¬ ((pySplit ',' (pyStrip item)).map pyStrip).length < 6 →
        pyInt (((pySplit ',' (pyStrip item)).map pyStrip).getD 2 "") = none →
        parseItems (item :: rest) = .error "ValueError") := by
  refine ⟨?_, ?_, ?_⟩
  · intro item rest hlen
    simp only [parseItems]
    split <;> rfl
  · intro env hraw
    show (if pyStrip (env.maria_sources.getD "") ≠ "" then
        match parseItems (pySplit ';' (pyStrip (env.maria_sources.getD ""))) with
        | Except.error e => Except.error e
        | Except.ok sources =>
          if sources ≠ [] then Except.ok sources
          else (fallbackSource env).map (fun s => [s])
      else (fallbackSource env).map (fun s => [s])) =
      (fallbackSource env).map (fun s => [s])
    by_cases hr : pyStrip (env.maria_sources.getD "") ≠ ""
    · rw [if_pos hr, hraw]
      simp
    · rw [if_neg hr]
  · intro item rest hne hlen hport
    simp only [parseItems]
    rw [if_neg hne, if_neg hlen, hport]

/-- Witness for the amended C3 theorem at concrete inputs: the record
`"a,b"` is skipped, the all-malformed descriptor `"a,b;c,d"` yields the
fallback, and a non-integer port raises. -/
theorem source_registry_amended_witness :
    parseItems ["a,b"] = parseItems []
    ∧ parseSources (envOnlySources "a,b;c,d") =
        (fallbackSource (envOnlySources "a,b;c,d")).map (fun s => [s])
    ∧ parseItems ["n,h,notanumber,db,u,p"] = .error "ValueError" :=
  ⟨source_registry_amended.1 "a,b" [] (by decide),
   source_registry_amended.2.1 (envOnlySources "a,b;c,d") (by rfl),
   source_registry_amended.2.2 "n,h,notanumber,db,u,p" [] (by decide) (by decide) (by rfl)⟩

/-- C7: for every fetched fact row, `Package` is
`round(first_nonzero(STrA, MTrA, DTrA, YTrA, ExtraTraffic) / 2^30, 2)`,
null exactly when all five traffic fields are zero or absent; in
particular `STrA=0, MTrA=0, DTrA=10737418240, YTrA=0` yields `10.0` and
all-zero traffic yields null. -/
theorem package_of_traffic :
    (∀ t : TrafficFields,
        packageOf t = (firstNonzeroSpec t).map (fun v => roundTo2 ((v : ℚ) / 2 ^ 30)))
    ∧ (∀ t : TrafficFields,
        (packageOf t = none ↔
          t.stra.getD 0 = 0 ∧ t.mtra.getD 0 = 0 ∧ t.dtra.getD 0 = 0 ∧
          t.ytra.getD 0 = 0 ∧ t.extraTraffic.getD 0 = 0))
    ∧ packageOf c7Traffic = some 10
    ∧ packageOf c7AllZero = none := by
  have hco : ∀ t : TrafficFields, trafficCoalesce t = firstNonzeroSpec t := by
    intro t
    have : trafficCoalesce t =
        sqlCoalesce ([t.stra, t.mtra, t.dtra, t.ytra, t.extraTraffic].map nullif0) := rfl
    rw [this, sqlCoalesce_nullif0]
    rfl
  refine ⟨?_, ?_, ?_, ?_⟩
  · intro t
    unfold packageOf
    rw [hco t]
    cases firstNonzeroSpec t with
    | none => rfl
    | some v => norm_num
  · intro t
    unfold packageOf
    rw [hco t]
    have : (firstNonzeroSpec t = none ↔
        t.stra.getD 0 = 0 ∧ t.mtra.getD 0 = 0 ∧ t.dtra.getD 0 = 0 ∧
        t.ytra.getD 0 = 0 ∧ t.extraTraffic.getD 0 = 0) := by
      unfold firstNonzeroSpec
      rw [firstNonzero_eq_none_iff]
      simp
    rw [← this]
    cases firstNonzeroSpec t <;> simp
  · show packageOf c7Traffic = some 10
    unfold packageOf
    have h10 : trafficCoalesce c7Traffic = some 10737418240 := by decide
    rw [h10]
    have : roundTo2 ((10737418240 : ℚ) / 1073741824) = 10 := by
      unfold roundTo2
      norm_num
    simp [this]
  · decide

/-- C2 (counterexample): the pipeline does NOT sort by the end-user
`username`: with rows for users "alice" (reseller "zzz") and "bob"
(reseller "aaa"), the output comes out `[bob-row, alice-row]`, which
violates the claimed key (username ascending, UserServiceID ascending,
CreateDate descending). -/
theorem warehouse_sort_claim_counterexample :
    (syncPrepare [[c2RowA], [c2RowB]]).map Prod.snd = [c2RowB, c2RowA]
    ∧ c2RowA.username = some "alice" ∧ c2RowB.username = some "bob"
    ∧ ¬ ((syncPrepare [[c2RowA], [c2RowB]]).map Prod.snd).Pairwise
          (fun x y => factLEClaim x y = true) := by
  exact ⟨rfl, rfl, rfl, by decide⟩

/-- C2 (amended): within one sync batch the concatenated rows are sorted
by (rs_username ascending, UserServiceID ascending, CreateDate descending,
nulls last) — the reseller name, not the end-user username — and `id` is
then assigned as the dense 1-based sequence over the sorted result; in
particular, of two rows with reseller "bob", the one with UserServiceID 1
precedes the one with UserServiceID 2 although its CreateDate is older. -/
theorem warehouse_sort_amended :
    (∀ dfs : List (List FactRow),
        ((syncPrepare dfs).map Prod.snd).Pairwise (fun x y => factLECode x y = true)
        ∧ List.Perm ((syncPrepare dfs).map Prod.snd) dfs.flatten
        ∧ (syncPrepare dfs).map Prod.fst = List.range' 1 dfs.flatten.length)
    ∧ (syncPrepare [[c2BobSvc2], [c2BobSvc1]]).map Prod.snd = [c2BobSvc1, c2BobSvc2] := by
  constructor
  · intro dfs
    refine ⟨?_, ?_, ?_⟩
    · rw [show (syncPrepare dfs).map Prod.snd = sortFactRows dfs.flatten from
          assignIds_map_snd _]
      exact sortByLE_pairwise lawFactCmpCode.le_total lawFactCmpCode.le_trans _
    · rw [show (syncPrepare dfs).map Prod.snd = sortFactRows dfs.flatten from
          assignIds_map_snd _]
      exact sortByLE_perm _ _
    · have hlen : (sortFactRows dfs.flatten).length = dfs.flatten.length :=
        (sortByLE_perm factLECode dfs.flatten).length_eq
      rw [show (syncPrepare dfs).map Prod.fst =
          List.range' 1 (sortFactRows dfs.flatten).length from assignIds_map_fst _, hlen]
  · rfl

/-- C4: in both the full/auto warehouse sync and the windowed sync, a
single source's fetch failure is logged as a structured event while every
other source is still processed (its success event is logged and its rows
collected); and when every source fails or yields no rows, the run is a
logged no-data no-op: the full sync returns 0 and writes nothing, the
windowed command returns without issuing its delete+insert. -/
theorem warehouse_fault_isolation :
    (∀ results n m, (n, FetchResult.err m) ∈ results →
        WEvent.sourceError n m ∈ (sync_maria_to_bigquery results).2.1)
    ∧ (∀ results n rows, (n, FetchResult.ok rows) ∈ results →
        WEvent.sourceSuccess n rows.length ∈ (sync_maria_to_bigquery results).2.1)
    ∧ (∀ results, (∀ p ∈ results, noDataOutcome p) →
        sync_maria_to_bigquery results =
          (0, WEvent.syncStart :: sourceLoopEvents results ++ [WEvent.syncNoData], none))
    ∧ (∀ start endD results n m, (n, FetchResult.err m) ∈ results →
        WindowEvent.windowSourceError n m ∈ (window_sync_handle start endD results).1)
    ∧ (∀ start endD results n rows, (n, FetchResult.ok rows) ∈ results →
        WindowEvent.windowSourceSuccess n rows.length ∈ (window_sync_handle start endD results).1)
    ∧ (∀ start endD results, (∀ p ∈ results, noDataOutcome p) →
        window_sync_handle start endD results =
          (WindowEvent.windowSyncStart :: windowLoopEvents results
             ++ [WindowEvent.windowSyncNoData], none))
    ∧ sync_maria_to_bigquery [("s1", .err "down"), ("s2", .ok [c4Row])] =
        (1, [WEvent.syncStart, WEvent.sourceStart "s1", WEvent.sourceError "s1" "down",
             WEvent.sourceStart "s2", WEvent.sourceSuccess "s2" 1, WEvent.syncLoaded 1],
         some [(1, c4Row)]) := by
  refine ⟨?_, ?_, ?_, ?_, ?_, ?_, by rfl⟩
  · intro results n m h
    simp only [sync_maria_to_bigquery]
    split <;>
      exact List.mem_cons_of_mem _ (List.mem_append_left _ (sourceError_mem_loopEvents h))
  · intro results n rows h
    simp only [sync_maria_to_bigquery]
    split <;>
      exact List.mem_cons_of_mem _ (List.mem_append_left _ (sourceSuccess_mem_loopEvents h))
  · intro results h
    simp only [sync_maria_to_bigquery]
    rw [collectDfs_eq_nil h]
    rfl
  · intro start endD results n m h
    simp only [window_sync_handle]
    split <;>
      exact List.mem_cons_of_mem _ (List.mem_append_left _ (windowError_mem_loopEvents h))
  · intro start endD results n rows h
    simp only [window_sync_handle]
    split <;>
      exact List.mem_cons_of_mem _ (List.mem_append_left _ (windowSuccess_mem_loopEvents h))
  · intro start endD results h
    simp only [window_sync_handle]
    rw [collectDfs_eq_nil h]
    rfl

/-! ## Reference cache sync (`maria_cache/sync.py`)

The cache store is a flat list of rows, each tagged with its entity model
and its `source_name` (the Django models live in twelve separate tables;
the `model` tag plays the role of the table).  `_replace_for_source` is
generic over the model, the fetched raw rows and the builder lambda, as in
the source.  Write failures are driven by an oracle `wfail` (which table's
replacement raises, per source); `transaction.atomic(using='cache')` rolls
the state back to the pre-transaction state when the body raises. -/

inductive RefModel
  | reseller | visp | center | supporter | status | service
  | resellerPermit | serviceReseller | statusReseller
  | serviceVisp | statusVisp | centerVisp
deriving DecidableEq, Repr

/-- The twelve replacements, in the order the transaction runs them. -/
def refModels : List RefModel :=
  [.reseller, .visp, .center, .supporter, .status, .service,
   .resellerPermit, .serviceReseller, .statusReseller,
   .serviceVisp, .statusVisp, .centerVisp]

theorem mem_refModels (m : RefModel) : m ∈ refModels := by
  cases m <;> decide

/-- `_bool_yes`: case-insensitive `"yes"` after stripping. -/
def boolYes (value : String) : Bool := pyLower (pyStrip value) = "yes"

structure CacheRow (π : Type) where
  model : RefModel
  source_name : String
  payload : π
deriving DecidableEq, Repr

def rowMatches {π : Type} (m : RefModel) (n : String) (r : CacheRow π) : Bool :=
  decide (r.model = m ∧ r.source_name = n)

/-- The rows of model `m` tagged `source_name = n`, by natural content. -/
def rowsOf {π : Type} (m : RefModel) (n : String) (st : List (CacheRow π)) : List π :=
  (st.filter (rowMatches m n)).map CacheRow.payload

/-- The rows tagged `source_name = n`, all models. -/
def sourceRows {π : Type} (n : String) (st : List (CacheRow π)) : List (CacheRow π) :=
  st.filter (fun r => decide (r.source_name = n))

/-- The delete / bulk-insert statements a replacement issues. -/
inductive CacheAction
  | delete (m : RefModel) (source : String)
  | insert (m : RefModel) (source : String) (rows : Nat)
deriving DecidableEq, Repr

/-- `_replace_for_source(model, source_name, rows, builder, dry_run)`:
in dry-run mode return the would-be count without touching anything;
otherwise delete every row of this model tagged with this source's name,
then bulk-insert the freshly built rows tagged with it. -/
def replace_for_source {ρ π : Type} (model : RefModel) (source_name : String)
    (rows : List ρ) (builder : ρ → π) (st : List (CacheRow π)) (dry_run : Bool) :
    List (CacheRow π) × Nat × List CacheAction :=
  if dry_run then (st, rows.length, [])
  else
    let kept := st.filter (fun r => !rowMatches model source_name r)
    let items := rows.map (fun r => CacheRow.mk model source_name (builder r))
    (kept ++ items, items.length,
     [.delete model source_name, .insert model source_name items.length])

/-- `if limit and limit > 0: rows = rows[:limit]`. -/
def applyLimit {ρ : Type} (limit : Option Nat) (rows : List ρ) : List ρ :=
  match limit with
  | some n => if 0 < n then rows.take n else rows
  | none => rows

/-- One configured source with the reference rows its twelve fetches
return in this run. -/
structure SrcData (ρ : Type) where
  name : String
  fetched : RefModel → List ρ

/-- A per-source summary: the per-table counts recorded before any write,
plus the dry-run flag. -/
structure Summary where
  source : String
  counts : List (RefModel × Nat)
  dry_run : Bool
deriving DecidableEq, Repr

def mkCounts {ρ : Type} (limit : Option Nat) (fetched : RefModel → List ρ) :
    List (RefModel × Nat) :=
  refModels.map (fun m => (m, (applyLimit limit (fetched m)).length))

/-- The transaction body: run the replacements for the given tables in
order; a failing table raises, aborting the rest of the body. Returns the
(pre-rollback) state, the statements issued, and whether the body
completed. -/
def runTables {ρ π : Type} (name : String) (builder : RefModel → ρ → π)
    (limit : Option Nat) (wfail : RefModel → Bool) (fetched : RefModel → List ρ) :
    List RefModel → List (CacheRow π) → List (CacheRow π) × List CacheAction × Bool
  | [], st => (st, [], true)
  | m :: ms, st =>
    if wfail m then (st, [], false)
    else
      let step := replace_for_source m name (applyLimit limit (fetched m)) (builder m) st false
      let rest := runTables name builder limit wfail fetched ms step.1
      (rest.1, step.2.2 ++ rest.2.1, rest.2.2)

/-- One source's pass of `sync_reference_tables`: record the summary, then
(unless dry-run) run the twelve replacements inside one atomic
transaction; on failure the transaction rolls the cache back to its
pre-transaction state and the exception propagates (`ok = false`). -/
def syncSourceStep {ρ π : Type} (builder : RefModel → ρ → π) (limit : Option Nat)
    (dry_run : Bool) (wfail : String → RefModel → Bool) (src : SrcData ρ)
    (st : List (CacheRow π)) :
    List (CacheRow π) × Summary × List CacheAction × Bool :=
  let summary : Summary :=
    { source := src.name, counts := mkCounts limit src.fetched, dry_run := dry_run }
  if dry_run then (st, summary, [], true)
  else
    let run := runTables src.name builder limit (wfail src.name) src.fetched refModels st
    if run.2.2 then (run.1, summary, run.2.1, true)
    else (st, summary, run.2.1, false)

/-- The multi-source loop of `sync_reference_tables`: each source is its
own transaction; a failure stops the loop (the exception propagates, so
the summaries gathered so far are never returned — the failing source's
name is reported in the last component). -/
def syncSourcesRun {ρ π : Type} (builder : RefModel → ρ → π) (limit : Option Nat)
    (dry_run : Bool) (wfail : String → RefModel → Bool) :
    List (SrcData ρ) → List (CacheRow π) →
    List (CacheRow π) × List Summary × List CacheAction × Option String
  | [], st => (st, [], [], none)
  | src :: rest, st =>
    let step := syncSourceStep builder limit dry_run wfail src st
    if step.2.2.2 then
      let next := syncSourcesRun builder limit dry_run wfail rest step.1
      (next.1, step.2.1 :: next.2.1, step.2.2.1 ++ next.2.2.1, next.2.2.2)
    else (step.1, [step.2.1], step.2.2.1, some src.name)

/-- `sync_reference_tables(source_name, dry_run, limit)`: filter the
configured sources by the optional name and raise when none is left. -/
def sync_reference_tables {ρ π : Type} (builder : RefModel → ρ → π)
    (sources : List (SrcData ρ)) (source_name : Option String) (dry_run : Bool)
    (limit : Option Nat) (wfail : String → RefModel → Bool) (st : List (CacheRow π)) :
    Except String
      (List (CacheRow π) × List Summary × List CacheAction × Option String) :=
  let selected := match source_name with
    | some n => sources.filter (fun s => decide (s.name = n))
    | none => sources
  if selected.isEmpty then .error "No MariaDB sources configured for cache sync."
  else .ok (syncSourcesRun builder limit dry_run wfail selected st)

/-! ### Lemmas about the replacement and the transaction body -/

theorem rowsOf_replace_same {ρ π : Type} (m : RefModel) (n : String)
    (rows : List ρ) (builder : ρ → π) (st : List (CacheRow π)) :
    rowsOf m n (replace_for_source m n rows builder st false).1 = rows.map builder := by
  unfold replace_for_source rowsOf
  simp only [Bool.false_eq_true, if_false]
  rw [List.filter_append]
  have h1 : (st.filter (fun r => !rowMatches m n r)).filter (rowMatches m n) = [] := by
    rw [List.filter_filter]
    apply List.filter_eq_nil_iff.mpr
    intro r _
    cases hr : rowMatches m n r <;> simp [hr]
  have h2 : (rows.map (fun r => CacheRow.mk m n (builder r))).filter (rowMatches m n)
      = rows.map (fun r => CacheRow.mk m n (builder r)) := by
    apply List.filter_eq_self.mpr
    intro r hr
    rcases List.mem_map.mp hr with ⟨x, _, rfl⟩
    simp [rowMatches]
  rw [h1, h2]
  simp [List.map_map]

theorem rowsOf_replace_other {ρ π : Type} {mq m : RefModel} {nq n : String}
    (h : ¬(mq = m ∧ nq = n)) (rows : List ρ) (builder : ρ → π)
    (st : List (CacheRow π)) :
    rowsOf mq nq (replace_for_source m n rows builder st false).1 = rowsOf mq nq st := by
  unfold replace_for_source rowsOf
  simp only [Bool.false_eq_true, if_false]
  rw [List.filter_append]
  have h2 : (rows.map (fun r => CacheRow.mk m n (builder r))).filter (rowMatches mq nq)
      = [] := by
    apply List.filter_eq_nil_iff.mpr
    intro r hr
    rcases List.mem_map.mp hr with ⟨x, _, rfl⟩
    simp only [rowMatches, decide_eq_true_eq]
    intro hc
    exact h ⟨hc.1.symm, hc.2.symm⟩
  have h1 : (st.filter (fun r => !rowMatches m n r)).filter (rowMatches mq nq)
      = st.filter (rowMatches mq nq) := by
    rw [List.filter_filter]
    apply List.filter_congr
    intro r _
    by_cases hq : rowMatches mq nq r = true
    · have hm : rowMatches m n r = false := by
        cases hmn : rowMatches m n r
        · rfl
        · exfalso
          simp only [rowMatches, decide_eq_true_eq] at hq hmn
          exact h ⟨hmn.1 ▸ hq.1.symm ▸ rfl, hmn.2 ▸ hq.2.symm ▸ rfl⟩
      simp [hq, hm]
    · simp only [Bool.not_eq_true] at hq
      simp [hq]
  rw [h1, h2, List.append_nil]

theorem runTables_ok_iff {ρ π : Type} (name : String) (builder : RefModel → ρ → π)
    (limit : Option Nat) (wfail : RefModel → Bool) (fetched : RefModel → List ρ) :
    ∀ (ms : List RefModel) (st : List (CacheRow π)),
      ((runTables name builder limit wfail fetched ms st).2.2 = true ↔
        ∀ m ∈ ms, wfail m = false)
  | [], st => by simp [runTables]
  | m :: ms, st => by
    by_cases hf : wfail m
    · simp [runTables, hf]
    · simp only [runTables, hf, Bool.false_eq_true, if_false]
      rw [runTables_ok_iff name builder limit wfail fetched ms _]
      simp only [Bool.not_eq_true] at hf
      simp [hf]

theorem runTables_rowsOf_other_source {ρ π : Type} (name : String)
    (builder : RefModel → ρ → π) (limit : Option Nat) (wfail : RefModel → Bool)
    (fetched : RefModel → List ρ) (mq : RefModel) {nq : String} (hne : nq ≠ name) :
    ∀ (ms : List RefModel) (st : List (CacheRow π)),
      rowsOf mq nq (runTables name builder limit wfail fetched ms st).1 = rowsOf mq nq st
  | [], st => rfl
  | m :: ms, st => by
    by_cases hf : wfail m
    · simp [runTables, hf]
    · simp only [runTables, hf, Bool.false_eq_true, if_false]
      rw [runTables_rowsOf_other_source name builder limit wfail fetched mq hne ms _]
      exact rowsOf_replace_other (fun hc => hne hc.2) _ _ _

theorem runTables_rowsOf_not_mem {ρ π : Type} (name : String)
    (builder : RefModel → ρ → π) (limit : Option Nat) (wfail : RefModel → Bool)
    (fetched : RefModel → List ρ) {mq : RefModel} :
    ∀ (ms : List RefModel) (st : List (CacheRow π)), mq ∉ ms →
      rowsOf mq name (runTables name builder limit wfail fetched ms st).1
        = rowsOf mq name st
  | [], st, _ => rfl
  | m :: ms, st, hnm => by
    have hm : mq ≠ m := fun hc => hnm (hc ▸ List.mem_cons_self _ _)
    by_cases hf : wfail m
    · simp [runTables, hf]
    · simp only [runTables, hf, Bool.false_eq_true, if_false]
      rw [runTables_rowsOf_not_mem name builder limit wfail fetched ms _
            (fun hc => hnm (List.mem_cons_of_mem _ hc))]
      exact rowsOf_replace_other (fun hc => hm hc.1) _ _ _

theorem runTables_rowsOf_mem {ρ π : Type} (name : String)
    (builder : RefModel → ρ → π) (limit : Option Nat) (wfail : RefModel → Bool)
    (fetched : RefModel → List ρ) {mq : RefModel} :
    ∀ (ms : List RefModel) (st : List (CacheRow π)), ms.Nodup →
      (∀ k ∈ ms, wfail k = false) → mq ∈ ms →
      rowsOf mq name (runTables name builder limit wfail fetched ms st).1
        = (applyLimit limit (fetched mq)).map (builder mq)
  | [], st, _, _, hmem => absurd hmem (List.not_mem_nil _)
  | m :: ms, st, hnd, hok, hmem => by
    have hf : wfail m = false := hok m (List.mem_cons_self _ _)
    simp only [runTables, hf, Bool.false_eq_true, if_false]
    rcases List.mem_cons.mp hmem with rfl | hmem'
    · rw [runTables_rowsOf_not_mem name builder limit wfail fetched ms _
            (List.nodup_cons.mp hnd).1]
      exact rowsOf_replace_same mq name _ _ _
    · rw [runTables_rowsOf_mem name builder limit wfail fetched ms _
            (List.nodup_cons.mp hnd).2
            (fun k hk => hok k (List.mem_cons_of_mem _ hk)) hmem']

/-! ### Lemmas about the per-source step and the multi-source loop -/

theorem refModels_nodup : refModels.Nodup := by decide

theorem syncSourceStep_ok_parts {ρ π : Type} (builder : RefModel → ρ → π)
    (limit : Option Nat) (wfail : String → RefModel → Bool) (src : SrcData ρ)
    (st : List (CacheRow π)) (hok : ∀ k ∈ refModels, wfail src.name k = false) :
    (syncSourceStep builder limit false wfail src st).1
      = (runTables src.name builder limit (wfail src.name) src.fetched refModels st).1
    ∧ (syncSourceStep builder limit false wfail src st).2.2.2 = true := by
  unfold syncSourceStep
  have h : (runTables src.name builder limit (wfail src.name) src.fetched refModels st).2.2
      = true :=
    (runTables_ok_iff src.name builder limit (wfail src.name) src.fetched refModels st).mpr hok
  simp [h]

theorem syncSourceStep_fail_parts {ρ π : Type} (builder : RefModel → ρ → π)
    (limit : Option Nat) (wfail : String → RefModel → Bool) (src : SrcData ρ)
    (st : List (CacheRow π)) (hfail : ∃ m ∈ refModels, wfail src.name m = true) :
    (syncSourceStep builder limit false wfail src st).1 = st
    ∧ (syncSourceStep builder limit false wfail src st).2.2.2 = false := by
  unfold syncSourceStep
  have h : (runTables src.name builder limit (wfail src.name) src.fetched refModels st).2.2
      = false := by
    rcases hfail with ⟨m, hm, hw⟩
    cases hcase : (runTables src.name builder limit (wfail src.name) src.fetched refModels st).2.2
    · rfl
    · rw [runTables_ok_iff] at hcase
      rw [hcase m hm] at hw
      cases hw
  simp [h]

theorem syncSourceStep_fail_state {ρ π : Type} (builder : RefModel → ρ → π)
    (limit : Option Nat) (wfail : String → RefModel → Bool) (src : SrcData ρ)
    (st : List (CacheRow π))
    (h : (syncSourceStep builder limit false wfail src st).2.2.2 = false) :
    (syncSourceStep builder limit false wfail src st).1 = st := by
  unfold syncSourceStep at *
  cases hcase : (runTables src.name builder limit (wfail src.name) src.fetched refModels st).2.2
  · simp [hcase]
  · simp [hcase] at h

theorem syncSourceStep_frame {ρ π : Type} (builder : RefModel → ρ → π)
    (limit : Option Nat) (dry_run : Bool) (wfail : String → RefModel → Bool)
    (src : SrcData ρ) (st : List (CacheRow π)) {n : String} (hne : n ≠ src.name)
    (m : RefModel) :
    rowsOf m n (syncSourceStep builder limit dry_run wfail src st).1 = rowsOf m n st := by
  unfold syncSourceStep
  cases dry_run
  · cases hcase : (runTables src.name builder limit (wfail src.name) src.fetched refModels st).2.2
    · simp [hcase]
    · simp only [Bool.false_eq_true, if_false, hcase, if_true]
      exact runTables_rowsOf_other_source src.name builder limit (wfail src.name)
        src.fetched m hne refModels st
  · simp

theorem syncSourcesRun_frame {ρ π : Type} (builder : RefModel → ρ → π)
    (limit : Option Nat) (dry_run : Bool) (wfail : String → RefModel → Bool) :
    ∀ (sources : List (SrcData ρ)) (st : List (CacheRow π)) {n : String},
      (∀ src ∈ sources, src.name ≠ n) → ∀ m : RefModel,
      rowsOf m n (syncSourcesRun builder limit dry_run wfail sources st).1 = rowsOf m n st
  | [], st, n, _, m => rfl
  | src :: rest, st, n, hnames, m => by
    have hne : n ≠ src.name := fun hc => hnames src (List.mem_cons_self _ _) hc.symm
    simp only [syncSourcesRun]
    cases hok : (syncSourceStep builder limit dry_run wfail src st).2.2.2
    · simp only [Bool.false_eq_true, if_false]
      exact syncSourceStep_frame builder limit dry_run wfail src st hne m
    · simp only [if_true]
      rw [syncSourcesRun_frame builder limit dry_run wfail rest _
            (fun s hs => hnames s (List.mem_cons_of_mem _ hs)) m]
      exact syncSourceStep_frame builder limit dry_run wfail src st hne m

theorem syncSourcesRun_rowsOf_mem {ρ π : Type} (builder : RefModel → ρ → π)
    (limit : Option Nat) (wfail : String → RefModel → Bool) :
    ∀ (sources : List (SrcData ρ)) (st : List (CacheRow π)),
      (sources.map SrcData.name).Nodup →
      (∀ src ∈ sources, ∀ k ∈ refModels, wfail src.name k = false) →
      ∀ src ∈ sources, ∀ m : RefModel,
      rowsOf m src.name (syncSourcesRun builder limit false wfail sources st).1
        = (applyLimit limit (src.fetched m)).map (builder m)
  | [], st, _, _, src, hmem, m => absurd hmem (List.not_mem_nil _)
  | src0 :: rest, st, hnd, hok, src, hmem, m => by
    have hok0 := hok src0 (List.mem_cons_self _ _)
    obtain ⟨hst, hokflag⟩ := syncSourceStep_ok_parts builder limit wfail src0 st hok0
    simp only [syncSourcesRun, hokflag, if_true]
    rcases List.mem_cons.mp hmem with rfl | hmem'
    · have hrest : ∀ s ∈ rest, s.name ≠ src.name := by
        intro s hs hc
        have : src.name ∈ rest.map SrcData.name := hc ▸ List.mem_map_of_mem _ hs
        exact (List.nodup_cons.mp (by simpa using hnd)).1 this
      rw [syncSourcesRun_frame builder limit false wfail rest _ hrest m, hst]
      exact runTables_rowsOf_mem src.name builder limit (wfail src.name) src.fetched
        refModels st refModels_nodup hok0 (mem_refModels m)
    · exact syncSourcesRun_rowsOf_mem builder limit wfail rest _
        (by simpa using (List.nodup_cons.mp (by simpa using hnd)).2)
        (fun s hs => hok s (List.mem_cons_of_mem _ hs)) src hmem' m

theorem syncSourcesRun_err_mem {ρ π : Type} (builder : RefModel → ρ → π)
    (limit : Option Nat) (dry_run : Bool) (wfail : String → RefModel → Bool) :
    ∀ (sources : List (SrcData ρ)) (st : List (CacheRow π)) {nf : String},
      (syncSourcesRun builder limit dry_run wfail sources st).2.2.2 = some nf →
      nf ∈ sources.map SrcData.name
  | [], st, nf, h => by simp [syncSourcesRun] at h
  | src :: rest, st, nf, h => by
    simp only [syncSourcesRun] at h
    cases hok : (syncSourceStep builder limit dry_run wfail src st).2.2.2
    · rw [hok] at h
      simp only [Bool.false_eq_true, if_false] at h
      injection h with h
      exact h ▸ List.mem_map_of_mem _ (List.mem_cons_self _ _)
    · rw [hok] at h
      simp only [if_true] at h
      exact List.mem_cons_of_mem _
        (syncSourcesRun_err_mem builder limit dry_run wfail rest _ h)

theorem syncSourcesRun_fail_frame {ρ π : Type} (builder : RefModel → ρ → π)
    (limit : Option Nat) (wfail : String → RefModel → Bool) :
    ∀ (sources : List (SrcData ρ)) (st : List (CacheRow π)) {nf : String},
      (sources.map SrcData.name).Nodup →
      (syncSourcesRun builder limit false wfail sources st).2.2.2 = some nf →
      ∀ m : RefModel,
      rowsOf m nf (syncSourcesRun builder limit false wfail sources st).1
        = rowsOf m nf st
  | [], st, nf, _, h, m => by simp [syncSourcesRun] at h
  | src :: rest, st, nf, hnd, h, m => by
    simp only [syncSourcesRun] at h ⊢
    by_cases hok : (syncSourceStep builder limit false wfail src st).2.2.2 = true
    case neg =>
      rw [Bool.not_eq_true] at hok
      simp only [hok, Bool.false_eq_true, if_false] at h ⊢
      rw [syncSourceStep_fail_state builder limit wfail src st hok]
    case pos =>
      simp only [hok, if_true] at h ⊢
      have hnfmem : nf ∈ rest.map SrcData.name :=
        syncSourcesRun_err_mem builder limit false wfail rest _ h
      have hne : nf ≠ src.name := by
        intro hc
        exact (List.nodup_cons.mp (by simpa using hnd)).1 (hc ▸ hnfmem)
      rw [syncSourcesRun_fail_frame builder limit wfail rest _
            (by simpa using (List.nodup_cons.mp (by simpa using hnd)).2) h m]
      have hall : ∀ k ∈ refModels, wfail src.name k = false := by
        intro k hk
        cases hw : wfail src.name k
        · rfl
        · exfalso
          obtain ⟨_, hflag⟩ :=
            syncSourceStep_fail_parts builder limit wfail src st ⟨k, hk, hw⟩
          rw [hflag] at hok
          cases hok
      obtain ⟨hst, _⟩ := syncSourceStep_ok_parts builder limit wfail src st hall
      rw [hst]
      exact runTables_rowsOf_other_source src.name builder limit (wfail src.name)
        src.fetched m hne refModels st

theorem syncSourcesRun_dry {ρ π : Type} (builder : RefModel → ρ → π)
    (limit : Option Nat) (wfail : String → RefModel → Bool) :
    ∀ (sources : List (SrcData ρ)) (st : List (CacheRow π)),
      syncSourcesRun builder limit true wfail sources st =
        (st, sources.map (fun src =>
          { source := src.name, counts := mkCounts limit src.fetched, dry_run := true }),
         [], none)
  | [], st => rfl
  | src :: rest, st => by
    simp only [syncSourcesRun, syncSourceStep, if_true]
    rw [syncSourcesRun_dry builder limit wfail rest st]
    simp

theorem syncSourceStep_summary {ρ π : Type} (builder : RefModel → ρ → π)
    (limit : Option Nat) (dry_run : Bool) (wfail : String → RefModel → Bool)
    (src : SrcData ρ) (st : List (CacheRow π)) :
    (syncSourceStep builder limit dry_run wfail src st).2.1 =
      { source := src.name, counts := mkCounts limit src.fetched, dry_run := dry_run } := by
  cases dry_run <;>
    by_cases hr : (runTables src.name builder limit (wfail src.name)
        src.fetched refModels st).2.2 = true <;>
    simp [syncSourceStep, hr]

theorem syncSourcesRun_summaries_ok {ρ π : Type} (builder : RefModel → ρ → π)
    (limit : Option Nat) (wfail : String → RefModel → Bool) :
    ∀ (sources : List (SrcData ρ)) (st : List (CacheRow π)),
      (∀ src ∈ sources, ∀ k ∈ refModels, wfail src.name k = false) →
      (syncSourcesRun builder limit false wfail sources st).2.1 =
        sources.map (fun src =>
          { source := src.name, counts := mkCounts limit src.fetched, dry_run := false })
  | [], st, _ => rfl
  | src :: rest, st, hok => by
    obtain ⟨_, hflag⟩ :=
      syncSourceStep_ok_parts builder limit wfail src st (hok src (List.mem_cons_self _ _))
    simp only [syncSourcesRun, hflag, if_true, List.map_cons]
    rw [syncSourcesRun_summaries_ok builder limit wfail rest _
          (fun s hs => hok s (List.mem_cons_of_mem _ hs)),
        syncSourceStep_summary builder limit false wfail src st]

/-! ### Claim theorems: reference cache sync -/

/-- A tiny concrete source for the cache-sync witnesses. -/
def c1Src : SrcData Nat := { name := "s1", fetched := fun _ => [1, 2] }

/-- A concrete pre-existing cache row of another source. -/
def c5Row : CacheRow Nat := { model := RefModel.reseller, source_name := "s1", payload := 5 }

/-- A failure oracle under which the `status` table's replacement raises. -/
def c5Fail : String → RefModel → Bool := fun _ m => decide (m = RefModel.status)

/-- C1: after a successful non-dry-run reference sync over sources with
distinct names, for every source S and every entity model T the stored
cache rows tagged `source_name = S` for T are (by natural content, in
order) exactly the rows fetched from S for T in that run — delete-all then
insert-all replacement; and running the sync again with the same fetched
data leaves every stored (model, source) row set unchanged. -/
theorem reference_cache_replace_semantics {ρ π : Type} (builder : RefModel → ρ → π)
    (sources : List (SrcData ρ)) (limit : Option Nat) (st : List (CacheRow π))
    (hnd : (sources.map SrcData.name).Nodup) :
    (∀ src ∈ sources, ∀ m : RefModel,
        rowsOf m src.name
            (syncSourcesRun builder limit false (fun _ _ => false) sources st).1
          = (applyLimit limit (src.fetched m)).map (builder m))
    ∧ (∀ (m : RefModel) (n : String),
        rowsOf m n
            (syncSourcesRun builder limit false (fun _ _ => false) sources
              (syncSourcesRun builder limit false (fun _ _ => false) sources st).1).1
          = rowsOf m n (syncSourcesRun builder limit false (fun _ _ => false) sources st).1) := by
  have hall : ∀ src ∈ sources, ∀ k ∈ refModels, (fun (_ : String) (_ : RefModel) => false) src.name k = false :=
    fun _ _ _ _ => rfl
  constructor
  · exact fun src hsrc m =>
      syncSourcesRun_rowsOf_mem builder limit _ sources st hnd hall src hsrc m
  · intro m n
    by_cases hex : ∃ src ∈ sources, src.name = n
    · obtain ⟨src, hsrc, rfl⟩ := hex
      rw [syncSourcesRun_rowsOf_mem builder limit _ sources _ hnd hall src hsrc m,
          syncSourcesRun_rowsOf_mem builder limit _ sources st hnd hall src hsrc m]
    · push_neg at hex
      exact syncSourcesRun_frame builder limit false _ sources _ hex m

/-- Witness for C1 at a concrete input: one source "s1" fetching `[1, 2]`
for every table, an empty initial cache; the stored reseller rows for "s1"
after the run are exactly `[1, 2]`, and a second run changes nothing. -/
theorem reference_cache_replace_semantics_witness :
    rowsOf RefModel.reseller "s1"
        (syncSourcesRun (fun _ x => x) none false (fun _ _ => false) [c1Src]
          ([] : List (CacheRow Nat))).1 = [1, 2]
    ∧ rowsOf RefModel.visp "s1"
        (syncSourcesRun (fun _ x => x) none false (fun _ _ => false) [c1Src]
          (syncSourcesRun (fun _ x => x) none false (fun _ _ => false) [c1Src]
            ([] : List (CacheRow Nat))).1).1
      = rowsOf RefModel.visp "s1"
          (syncSourcesRun (fun _ x => x) none false (fun _ _ => false) [c1Src]
            ([] : List (CacheRow Nat))).1 := by
  have h := reference_cache_replace_semantics (π := Nat) (fun _ x => x) [c1Src] none []
    (by decide)
  exact ⟨(h.1 c1Src (List.mem_cons_self _ _) RefModel.reseller).trans rfl,
         h.2 RefModel.visp "s1"⟩

/-- C5: a failure in any table's replacement aborts that source's whole
transaction, leaving the cache exactly at its pre-transaction state and
re-raising; each source's replacement only ever touches rows tagged with
its own name, so the rows of every other source are unaffected by the
failure; and in the multi-source loop the first failing source's rows are
left at their pre-run state (the loop stops there, earlier sources'
transactions stand).  Concretely: with the `status` replacement failing,
a pre-existing row of source "s1" survives untouched. -/
theorem reference_cache_atomicity :
    (∀ (ρ π : Type) (builder : RefModel → ρ → π) (limit : Option Nat)
        (wfail : String → RefModel → Bool) (src : SrcData ρ) (st : List (CacheRow π)),
        (∃ m ∈ refModels, wfail src.name m = true) →
        (syncSourceStep builder limit false wfail src st).1 = st
        ∧ (syncSourceStep builder limit false wfail src st).2.2.2 = false)
    ∧ (∀ (ρ π : Type) (builder : RefModel → ρ → π) (limit : Option Nat)
        (wfail : String → RefModel → Bool) (src : SrcData ρ) (st : List (CacheRow π))
        (n : String), n ≠ src.name → ∀ m : RefModel,
        rowsOf m n (syncSourceStep builder limit false wfail src st).1 = rowsOf m n st)
    ∧ (∀ (ρ π : Type) (builder : RefModel → ρ → π) (limit : Option Nat)
        (wfail : String → RefModel → Bool) (sources : List (SrcData ρ))
        (st : List (CacheRow π)) (nf : String),
        (sources.map SrcData.name).Nodup →
        (syncSourcesRun builder limit false wfail sources st).2.2.2 = some nf →
        ∀ m : RefModel,
        rowsOf m nf (syncSourcesRun builder limit false wfail sources st).1
          = rowsOf m nf st)
    ∧ (syncSourceStep (fun _ x => x) none false c5Fail c1Src [c5Row]).1 = [c5Row] := by
  refine ⟨?_, ?_, ?_, ?_⟩
  · exact fun ρ π builder limit wfail src st hfail =>
      syncSourceStep_fail_parts builder limit wfail src st hfail
  · exact fun ρ π builder limit wfail src st n hne m =>
      syncSourceStep_frame builder limit false wfail src st hne m
  · exact fun ρ π builder limit wfail sources st nf hnd herr m =>
      syncSourcesRun_fail_frame builder limit wfail sources st hnd herr m
  · exact (syncSourceStep_fail_parts (fun _ x => x) none c5Fail c1Src [c5Row]
      ⟨RefModel.status, by decide, by decide⟩).1

/-- C8: with `dry_run = true` the reference sync issues no delete and no
insert for any source and leaves the cache state exactly unchanged,
whatever the write-failure oracle would have done; and its returned
per-source summary counts equal the counts a successful non-dry-run
invocation reports against the same fetched data (from any cache state). -/
theorem reference_cache_dry_run {ρ π : Type} :
    (∀ (builder : RefModel → ρ → π) (limit : Option Nat)
        (wfail : String → RefModel → Bool) (sources : List (SrcData ρ))
        (st : List (CacheRow π)),
        syncSourcesRun builder limit true wfail sources st =
          (st,
           sources.map (fun src =>
             { source := src.name, counts := mkCounts limit src.fetched,
               dry_run := true }),
           [], none))
    ∧ (∀ (builder : RefModel → ρ → π) (limit : Option Nat)
        (wfail : String → RefModel → Bool) (sources : List (SrcData ρ))
        (st st' : List (CacheRow π)),
        ((syncSourcesRun builder limit true wfail sources st).2.1).map Summary.counts
          = ((syncSourcesRun builder limit false (fun _ _ => false) sources st').2.1).map
              Summary.counts) := by
  constructor
  · exact fun builder limit wfail sources st =>
      syncSourcesRun_dry builder limit wfail sources st
  · intro builder limit wfail sources st st'
    rw [syncSourcesRun_dry builder limit wfail sources st,
        syncSourcesRun_summaries_ok builder limit _ sources st' (fun _ _ _ _ => rfl)]
    simp [List.map_map]

/-! ## Reseller identity map (`_fetch_reseller_map` and backfill lines 103–107) -/

structure ResellerRow where
  reseller_Id : Option Int
  resellerName : Option String
deriving Repr, DecidableEq

structure MapEntry where
  creator_norm : String
  rs_userid : Option Int
  rs_name : Option String
deriving Repr, DecidableEq

/-- `_fetch_reseller_map`: `WHERE ResellerName IS NOT NULL AND
ResellerName <> ''`; `creator_norm` is the stripped, lowercased name;
`rs_userid` the reseller's id, `rs_name` the owning source's name. -/
def fetch_reseller_map (sourceName : String) (rows : List ResellerRow) :
    List MapEntry :=
  (rows.filter (fun r => decide (r.resellerName ≠ none ∧ r.resellerName ≠ some ""))).map
    (fun r =>
      { creator_norm := pyLower (pyStrip (r.resellerName.getD ""))
        rs_userid := r.reseller_Id
        rs_name := some sourceName })

/-- `drop_duplicates(subset=['creator_norm'], keep='first')`, with the
keys already taken accumulated in `seen`. -/
def dedupFirstBy (seen : List String) : List MapEntry → List MapEntry
  | [] => []
  | e :: rest =>
    if e.creator_norm ∈ seen then dedupFirstBy seen rest
    else e :: dedupFirstBy (e.creator_norm :: seen) rest

/-- Lines 103–107 of the backfill command: concatenate the per-source
maps, drop entries whose key strips to empty (the `notna` filter is
vacuous here — `creator_norm` is never null by construction), and
deduplicate on `creator_norm`, first occurrence winning. -/
def buildMapStage (maps : List (List MapEntry)) : List MapEntry :=
  dedupFirstBy [] (maps.flatten.filter (fun e => decide (pyStrip e.creator_norm ≠ "")))

/-- The first entry of the list carrying the key `k` — the semantics a
reader of the deduplicated map observes. -/
def firstWithKey (k : String) : List MapEntry → Option MapEntry
  | [] => none
  | e :: rest => if e.creator_norm = k then some e else firstWithKey k rest

/-! ## Backfill merge query (`backfill_report_user_service`, lines 118–185) -/

structure HspRow where
  creatDate : Option Int
  creator : Option String
  userServiceId : Option Int
  username : Option String
  serviceName : Option String
  servicePrice : Option ℚ
  package : Option ℚ
  serviceStatus : Option String
  startDate : Option Int
  endDate : Option Int
deriving Repr, DecidableEq

/-- A row of the produced target table (before `id` assignment). -/
structure TargetRow where
  createDate : Option Int
  rs_userid : Option Int
  rs_username : Option String
  rs_name : Option String
  userServiceID : Option Int
  username : Option String
  serviceName : Option String
  servicePrice : Option ℚ
  package : Option ℚ
  serviceStatus : Option String
  startDate : Option Int
  endDate : Option Int
deriving Repr, DecidableEq

/-- `SAFE_CAST(d AS DATE) >= DATE(@cutoff_date)` — NULL is not ≥. -/
def sqlGeDate (d : Option Int) (cutoff : Int) : Bool :=
  match d with
  | some x => decide (cutoff ≤ x)
  | none => false

/-- `SAFE_CAST(d AS DATE) < DATE(@cutoff_date)` — NULL is not <. -/
def sqlLtDate (d : Option Int) (cutoff : Int) : Bool :=
  match d with
  | some x => decide (x < cutoff)
  | none => false

/-- The SELECT list of the `maria` CTE applied to one staged live row
(`rs_name` was set to the source's name by the fetch, hence non-null). -/
def mariaToTarget (r : FactRow) : TargetRow :=
  { createDate := r.createDate, rs_userid := r.rs_userid,
    rs_username := r.rs_username, rs_name := some r.rs_name,
    userServiceID := r.userServiceID, username := r.username,
    serviceName := r.serviceName, servicePrice := r.servicePrice,
    package := r.package, serviceStatus := r.serviceStatus,
    startDate := r.startDate, endDate := r.endDate }

/-- The `maria` CTE: staged rows with `CreateDate >= cutoff`. -/
def mariaCTE (stage : List FactRow) (cutoff : Int) : List TargetRow :=
  (stage.filter (fun r => sqlGeDate r.createDate cutoff)).map mariaToTarget

/-- A SQL LEFT JOIN's matches for one left row: every matching right row,
or one all-NULL row when there is none. -/
def leftJoin {β : Type} (ms : List β) : List (Option β) :=
  if ms.isEmpty then [none] else ms.map some

/-- `ON LOWER(TRIM(h.Creator)) = m.creator_norm` — a NULL creator matches
nothing. -/
def creatorMatches (creator : Option String) (m : MapEntry) : Bool :=
  match creator with
  | none => false
  | some c => decide (pyLower (sqlTrim c) = m.creator_norm)

/-- `ON SAFE_CAST(h.UserServiceId AS INT64) = SAFE_CAST(ms.UserServiceID
AS INT64)` — NULL on either side matches nothing. -/
def svcMatches (a b : Option Int) : Bool :=
  match a, b with
  | some x, some y => decide (x = y)
  | _, _ => false

/-- The SELECT list of the `base_hsp` CTE for one legacy row and its
(possibly absent) joined map entry: unresolved creators keep NULL
`rs_userid` / `rs_name`. -/
def hspToTarget (h : HspRow) (m : Option MapEntry) : TargetRow :=
  { createDate := h.creatDate, rs_userid := m.bind MapEntry.rs_userid,
    rs_username := h.creator, rs_name := m.bind MapEntry.rs_name,
    userServiceID := h.userServiceId, username := h.username,
    serviceName := h.serviceName, servicePrice := h.servicePrice,
    package := h.package, serviceStatus := h.serviceStatus,
    startDate := h.startDate, endDate := h.endDate }

/-- The `base_hsp` CTE: legacy rows, LEFT JOIN the reseller map on the
normalized creator, LEFT JOIN the staged live rows on UserServiceID,
`WHERE CreatDate < cutoff AND ms.UserServiceID IS NULL`. -/
def baseHspRow (mapStage : List MapEntry) (stage : List FactRow) (cutoff : Int)
    (h : HspRow) : List TargetRow :=
  let mm := leftJoin (mapStage.filter (creatorMatches h.creator))
  let ss := leftJoin (stage.filter (fun s => svcMatches h.userServiceId s.userServiceID))
  let pairs := mm.flatMap (fun m => ss.map (fun ms => (m, ms)))
  let kept := pairs.filter (fun p =>
    sqlLtDate h.creatDate cutoff && decide ((p.2.bind FactRow.userServiceID) = none))
  kept.map (fun p => hspToTarget h p.1)

def baseHsp (hsp : List HspRow) (mapStage : List MapEntry) (stage : List FactRow)
    (cutoff : Int) : List TargetRow :=
  hsp.flatMap (baseHspRow mapStage stage cutoff)

/-- `ROW_NUMBER() OVER (ORDER BY rs_username, UserServiceID, CreateDate
DESC)` — BigQuery sorts NULLs first ascending, last descending. -/
def targetCmpBQ (a b : TargetRow) : Ordering :=
  (cmpOptNF strCmp a.rs_username b.rs_username).then
    ((cmpOptNF cmpO a.userServiceID b.userServiceID).then
      (cmpOptNL (cmpRev cmpO) a.createDate b.createDate))

def targetLEBQ (a b : TargetRow) : Bool := ordLe (targetCmpBQ a b)

/-- The `CREATE OR REPLACE TABLE ... AS` query: the union of the two CTEs,
re-ranked by the window order to assign the final dense 1-based `id`. -/
def backfillQuery (stage : List FactRow) (hsp : List HspRow)
    (mapStage : List MapEntry) (cutoff : Int) : List (Nat × TargetRow) :=
  let united := mariaCTE stage cutoff ++ baseHsp hsp mapStage stage cutoff
  (List.range' 1 united.length).zip (sortByLE targetLEBQ united)

/-! ## The backfill command's control flow (`Command.handle`) -/

inductive BackfillAction
  | loadMariaStage (disposition : String) (rows : Nat)
  | loadMapStage (rows : Nat)
  | createEmptyMapStage
  | createOrReplaceTarget
  | deleteStageTables
deriving Repr, DecidableEq

/-- The per-source loop of the backfill command: a non-empty fetched frame
is loaded into the maria stage (`WRITE_TRUNCATE` for the first,
`WRITE_APPEND` after), a non-empty reseller map is collected.  Returns
(actions, whether anything was loaded, the collected maps). -/
def backfillLoop : List (List FactRow × List MapEntry) → Bool →
    List BackfillAction × Bool × List (List MapEntry)
  | [], loaded => ([], loaded, [])
  | (df, mp) :: rest, loaded =>
    let acts1 : List BackfillAction :=
      if df.isEmpty then []
      else [.loadMariaStage (if loaded then "WRITE_APPEND" else "WRITE_TRUNCATE") df.length]
    let next := backfillLoop rest (loaded || !df.isEmpty)
    (acts1 ++ next.1, next.2.1, (if mp.isEmpty then [] else [mp]) ++ next.2.2)

/-- `Command.handle` after configuration validation, given each source's
successfully fetched live rows (`CreateDate >= cutoff`) and reseller-map
rows (a fetch exception would propagate before this point): the warehouse
actions issued in order, and the outcome.  When no source returned any
live row the command raises `RuntimeError` BEFORE the map stage and the
target query; the `finally` block still removes the stage tables. -/
def backfill_handle (srcData : List (List FactRow × List MapEntry))
    (hsp : List HspRow) (cutoff : Int) :
    List BackfillAction × Except String (List (Nat × TargetRow)) :=
  let loop := backfillLoop srcData false
  if !loop.2.1 then
    (loop.1 ++ [.deleteStageTables], .error "No MariaDB rows returned for cutoff date.")
  else
    let mapStage := buildMapStage loop.2.2
    let mapActs : List BackfillAction :=
      if loop.2.2.isEmpty then [.createEmptyMapStage] else [.loadMapStage mapStage.length]
    let stage := (srcData.map Prod.fst).flatten
    (loop.1 ++ mapActs ++ [.createOrReplaceTarget, .deleteStageTables],
     .ok (backfillQuery stage hsp mapStage cutoff))

/-! ### Lemmas about the identity-map deduplication (C9) -/

theorem dedupFirstBy_spec :
    ∀ (seen : List String) (l : List MapEntry),
      ((dedupFirstBy seen l).map MapEntry.creator_norm).Nodup
      ∧ ∀ e ∈ dedupFirstBy seen l, e.creator_norm ∉ seen
  | seen, [] => ⟨List.nodup_nil, by simp [dedupFirstBy]⟩
  | seen, e :: rest => by
    by_cases hk : e.creator_norm ∈ seen
    · simpa [dedupFirstBy, hk] using dedupFirstBy_spec seen rest
    · obtain ⟨hnd, hseen⟩ := dedupFirstBy_spec (e.creator_norm :: seen) rest
      simp only [dedupFirstBy, hk, if_false, List.map_cons]
      constructor
      · refine List.nodup_cons.mpr ⟨?_, hnd⟩
        intro hmem
        rcases List.mem_map.mp hmem with ⟨x, hx, hxe⟩
        exact hseen x hx (hxe ▸ List.mem_cons_self _ _)
      · intro x hx
        rcases List.mem_cons.mp hx with rfl | hx'
        · exact hk
        · exact fun hc => hseen x hx' (List.mem_cons_of_mem _ hc)

theorem firstWithKey_dedupFirstBy :
    ∀ (seen : List String) (l : List MapEntry) (k : String), k ∉ seen →
      firstWithKey k (dedupFirstBy seen l) = firstWithKey k l
  | seen, [], k, _ => rfl
  | seen, e :: rest, k, hks => by
    by_cases hek : e.creator_norm = k
    · have hnot : e.creator_norm ∉ seen := hek ▸ hks
      unfold dedupFirstBy
      rw [if_neg hnot]
      unfold firstWithKey
      rw [if_pos hek, if_pos hek]
    · by_cases hmem : e.creator_norm ∈ seen
      · simp only [dedupFirstBy, hmem, if_true, firstWithKey, hek, if_false]
        exact firstWithKey_dedupFirstBy seen rest k hks
      · simp only [dedupFirstBy, hmem, if_false, firstWithKey, hek]
        exact firstWithKey_dedupFirstBy (e.creator_norm :: seen) rest k
          (by
            intro hc
            rcases List.mem_cons.mp hc with hc' | hc'
            · exact hek hc'.symm
            · exact hks hc')

/-- C9: the reseller identity map normalizes each kept (non-null,
non-empty) reseller name to the lowercase, whitespace-trimmed key
`creator_norm`, and the backfill deduplicates the concatenated map to one
entry per key, the first-seen entry winning (looking any key up in the
deduplicated map finds exactly the first entry of the concatenated input
carrying it); e.g. `"ACME Corp"` from source s1 and `"acme corp "` from
source s2 merge into the single entry keyed `"acme corp"` of s1. -/
theorem reseller_map_normalization_dedup :
    (∀ maps : List (List MapEntry),
        ((buildMapStage maps).map MapEntry.creator_norm).Nodup)
    ∧ (∀ (maps : List (List MapEntry)) (k : String),
        firstWithKey k (buildMapStage maps)
          = firstWithKey k
              (maps.flatten.filter (fun e => decide (pyStrip e.creator_norm ≠ ""))))
    ∧ (∀ (srcName : String) (rows : List ResellerRow), ∀ e ∈ fetch_reseller_map srcName rows,
        ∃ r ∈ rows, r.resellerName ≠ none ∧ r.resellerName ≠ some ""
          ∧ e = { creator_norm := pyLower (pyStrip (r.resellerName.getD ""))
                  rs_userid := r.reseller_Id, rs_name := some srcName })
    ∧ buildMapStage
        [fetch_reseller_map "s1" [{ reseller_Id := some 1, resellerName := some "ACME Corp" }],
         fetch_reseller_map "s2" [{ reseller_Id := some 2, resellerName := some "acme corp " }]]
      = [{ creator_norm := "acme corp", rs_userid := some 1, rs_name := some "s1" }] := by
  refine ⟨?_, ?_, ?_, by decide⟩
  · exact fun maps => (dedupFirstBy_spec [] _).1
  · exact fun maps k => firstWithKey_dedupFirstBy [] _ k (List.not_mem_nil k)
  · intro srcName rows e he
    unfold fetch_reseller_map at he
    rcases List.mem_map.mp he with ⟨r, hr, rfl⟩
    rcases List.mem_filter.mp hr with ⟨hrm, hcond⟩
    rw [decide_eq_true_eq] at hcond
    exact ⟨r, hrm, hcond.1, hcond.2, rfl⟩

/-- Witness for C9's universally quantified parts at the ACME example. -/
theorem reseller_map_normalization_dedup_witness :
    ((buildMapStage
        [fetch_reseller_map "s1" [{ reseller_Id := some 1, resellerName := some "ACME Corp" }],
         fetch_reseller_map "s2" [{ reseller_Id := some 2, resellerName := some "acme corp " }]]).map
        MapEntry.creator_norm).Nodup :=
  reseller_map_normalization_dedup.1 _

/-! ### Lemmas about the backfill merge (C6) -/

/-- The legacy rows the claim says survive the merge: created before the
cutoff and with no staged live row sharing their UserServiceID. -/
def qualifiesHsp (stage : List FactRow) (cutoff : Int) (h : HspRow) : Bool :=
  sqlLtDate h.creatDate cutoff
    && !(stage.any (fun s => svcMatches h.userServiceId s.userServiceID))

theorem filter_key_le_one (l : List MapEntry)
    (hnd : (l.map MapEntry.creator_norm).Nodup) (p : MapEntry → Bool) (k : String)
    (hp : ∀ m, p m = true → m.creator_norm = k) :
    (l.filter p).length ≤ 1 := by
  induction l with
  | nil => simp
  | cons e rest ih =>
    rw [List.map_cons, List.nodup_cons] at hnd
    obtain ⟨hkey, hnd2⟩ := hnd
    by_cases hpe : p e = true
    · rw [List.filter_cons_of_pos hpe]
      have hrest : rest.filter p = [] := by
        apply List.filter_eq_nil_iff.mpr
        intro x hx hpx
        have hxe : e.creator_norm ∈ rest.map MapEntry.creator_norm := by
          rw [hp e hpe, ← hp x hpx]
          exact List.mem_map_of_mem _ hx
        exact hkey hxe
      simp [hrest]
    · rw [List.filter_cons_of_neg (by simpa using hpe)]
      exact ih hnd2

theorem flatMap_singleton_map {α β : Type} (f : α → β) (l : List α) :
    (l.flatMap fun x => [f x]) = l.map f := by
  induction l with
  | nil => rfl
  | cons a t ih => simp [List.flatMap_cons, ih]

theorem baseHspRow_char (mapStage : List MapEntry) (stage : List FactRow)
    (cutoff : Int) (h : HspRow)
    (hnd : (mapStage.map MapEntry.creator_norm).Nodup) :
    baseHspRow mapStage stage cutoff h
      = if qualifiesHsp stage cutoff h
        then [hspToTarget h ((mapStage.filter (creatorMatches h.creator)).head?)]
        else [] := by
  unfold baseHspRow qualifiesHsp
  by_cases hdate : sqlLtDate h.creatDate cutoff = true
  case neg =>
    have hd : sqlLtDate h.creatDate cutoff = false := by simpa using hdate
    rw [hd]
    simp
  case pos =>
    rw [hdate]
    simp only [Bool.true_and]
    by_cases hsvc : stage.any (fun s => svcMatches h.userServiceId s.userServiceID) = true
    · rw [hsvc]
      simp only [Bool.not_true, if_false]
      have hne : (stage.filter
          (fun s => svcMatches h.userServiceId s.userServiceID)).isEmpty = false := by
        rcases List.any_eq_true.mp hsvc with ⟨s, hs, hps⟩
        cases hemp : (stage.filter
            (fun s => svcMatches h.userServiceId s.userServiceID)).isEmpty
        · rfl
        · exact absurd hps
            (List.filter_eq_nil_iff.mp (List.isEmpty_iff.mp hemp) s hs)
      have hkept : ∀ p ∈ (leftJoin (mapStage.filter (creatorMatches h.creator))).flatMap
            (fun m => (leftJoin (stage.filter
              (fun s => svcMatches h.userServiceId s.userServiceID))).map (fun ms => (m, ms))),
          decide ((p.2.bind FactRow.userServiceID) = none) = false := by
        intro p hp
        rcases List.mem_flatMap.mp hp with ⟨m, _, hpm⟩
        rcases List.mem_map.mp hpm with ⟨ms, hms, rfl⟩
        unfold leftJoin at hms
        rw [hne] at hms
        simp only [Bool.false_eq_true, if_false] at hms
        rcases List.mem_map.mp hms with ⟨s, hsf, rfl⟩
        have hsvcm := (List.mem_filter.mp hsf).2
        unfold svcMatches at hsvcm
        cases ha : h.userServiceId with
        | none => rw [ha] at hsvcm; cases hsvcm
        | some x =>
          cases hb : s.userServiceID with
          | none => rw [ha, hb] at hsvcm; cases hsvcm
          | some y => simp [hb]
      have hkept2 : ((leftJoin (mapStage.filter (creatorMatches h.creator))).flatMap
            (fun m => (leftJoin (stage.filter
              (fun s => svcMatches h.userServiceId s.userServiceID))).map
              (fun ms => (m, ms)))).filter
            (fun p => decide ((p.2.bind FactRow.userServiceID) = none)) = [] := by
        apply List.filter_eq_nil_iff.mpr
        intro p hp
        rw [hkept p hp]
        decide
      rw [hkept2]
      rfl
    · have hsv : stage.any (fun s => svcMatches h.userServiceId s.userServiceID) = false := by
        simpa using hsvc
      rw [hsv]
      simp only [Bool.not_false, Bool.and_true, if_true]
      have hfe : stage.filter (fun s => svcMatches h.userServiceId s.userServiceID) = [] := by
        apply List.filter_eq_nil_iff.mpr
        intro s hs hps
        have hc : stage.any (fun s => svcMatches h.userServiceId s.userServiceID) = true :=
          List.any_eq_true.mpr ⟨s, hs, hps⟩
        rw [hc] at hsv
        cases hsv
      rw [hfe]
      have hlj : leftJoin ([] : List FactRow) = [none] := rfl
      rw [hlj]
      have hpairs : ∀ (mm : List (Option MapEntry)),
          (mm.flatMap fun m => ([(none : Option FactRow)].map (fun ms => (m, ms))))
            = mm.map (fun m => (m, (none : Option FactRow))) := by
        intro mm
        rw [show (fun m : Option MapEntry =>
            ([(none : Option FactRow)].map (fun ms => (m, ms))))
          = fun m => [(m, (none : Option FactRow))] from rfl]
        exact flatMap_singleton_map _ mm
      rw [hpairs]
      have hself : ((leftJoin (mapStage.filter (creatorMatches h.creator))).map
            (fun m => (m, (none : Option FactRow)))).filter
            (fun p => decide ((p.2.bind FactRow.userServiceID) = none))
          = (leftJoin (mapStage.filter (creatorMatches h.creator))).map
              (fun m => (m, (none : Option FactRow))) := by
        apply List.filter_eq_self.mpr
        intro p hp
        rcases List.mem_map.mp hp with ⟨m, _, rfl⟩
        rfl
      rw [hself, List.map_map]
      cases hfm : mapStage.filter (creatorMatches h.creator) with
      | nil =>
        simp [leftJoin]
      | cons m0 fr =>
        have hm0 : creatorMatches h.creator m0 = true :=
          (List.mem_filter.mp (hfm ▸ List.mem_cons_self m0 fr)).2
        cases hcr : h.creator with
        | none =>
          rw [hcr] at hm0
          exact absurd hm0 (by unfold creatorMatches; simp)
        | some c =>
          have hfr : fr = [] := by
            have hle := filter_key_le_one mapStage hnd (creatorMatches h.creator)
              (pyLower (sqlTrim c)) (by
                intro m hm
                rw [hcr] at hm
                unfold creatorMatches at hm
                rw [decide_eq_true_eq] at hm
                exact hm.symm)
            rw [hfm] at hle
            cases hfr2 : fr with
            | nil => rfl
            | cons a t =>
              rw [hfr2] at hle
              simp at hle
          rw [hfr]
          simp [leftJoin]

theorem baseHsp_char (hsp : List HspRow) (mapStage : List MapEntry)
    (stage : List FactRow) (cutoff : Int)
    (hnd : (mapStage.map MapEntry.creator_norm).Nodup) :
    baseHsp hsp mapStage stage cutoff
      = (hsp.filter (qualifiesHsp stage cutoff)).map
          (fun h => hspToTarget h ((mapStage.filter (creatorMatches h.creator)).head?)) := by
  induction hsp with
  | nil => rfl
  | cons h rest ih =>
    unfold baseHsp at ih ⊢
    rw [List.flatMap_cons, ih, baseHspRow_char mapStage stage cutoff h hnd]
    by_cases hq : qualifiesHsp stage cutoff h = true
    · rw [if_pos hq, List.filter_cons_of_pos hq, List.map_cons]
      rfl
    · rw [if_neg hq, List.filter_cons_of_neg (by simpa using hq), List.nil_append]

/-- Live rows for the concrete backfill run: one staged row, CreateDate 10,
UserServiceID 100. -/
def c6Stage : List FactRow :=
  [{ createDate := some 10, rs_userid := some 3, rs_username := some "r1",
     rs_name := "s1", userServiceID := some 100, username := some "u",
     serviceName := none, servicePrice := none, package := none,
     serviceStatus := none, startDate := none, endDate := none }]

/-- Legacy rows: one kept (UserServiceID 50, resolvable creator), one
shadowed by the live UserServiceID 100. -/
def c6Hsp : List HspRow :=
  [{ creatDate := some 1, creator := some "ACME Corp", userServiceId := some 50,
     username := some "old1", serviceName := none, servicePrice := none,
     package := none, serviceStatus := none, startDate := none, endDate := none },
   { creatDate := some 1, creator := some "ghost", userServiceId := some 100,
     username := some "old2", serviceName := none, servicePrice := none,
     package := none, serviceStatus := none, startDate := none, endDate := none }]

def c6Maps : List (List MapEntry) :=
  [[{ creator_norm := "acme corp", rs_userid := some 7, rs_name := some "s1" }]]

/-- C6: for a backfill merge with cutoff C over live rows fetched with
CreateDate ≥ C: the produced target is (up to the final re-ranking) the
union of the two provenances; every live row is present (the `maria` CTE
keeps the whole stage); no UserServiceID value occurs in both provenances;
each legacy row with CreatDate < C whose UserServiceID is absent from the
live set contributes exactly one target row, carrying the (unique) matching
identity-map entry; and an unresolved creator keeps null identity fields. -/
theorem backfill_merge_correctness (stage : List FactRow) (hsp : List HspRow)
    (maps : List (List MapEntry)) (cutoff : Int)
    (hstage : ∀ r ∈ stage, sqlGeDate r.createDate cutoff = true) :
    List.Perm ((backfillQuery stage hsp (buildMapStage maps) cutoff).map Prod.snd)
        (mariaCTE stage cutoff ++ baseHsp hsp (buildMapStage maps) stage cutoff)
    ∧ mariaCTE stage cutoff = stage.map mariaToTarget
    ∧ (∀ v : Int, ¬((∃ r ∈ mariaCTE stage cutoff, r.userServiceID = some v)
          ∧ ∃ r ∈ baseHsp hsp (buildMapStage maps) stage cutoff,
              r.userServiceID = some v))
    ∧ baseHsp hsp (buildMapStage maps) stage cutoff
        = (hsp.filter (qualifiesHsp stage cutoff)).map
            (fun h => hspToTarget h
              (((buildMapStage maps).filter (creatorMatches h.creator)).head?))
    ∧ (∀ h : HspRow,
        (hspToTarget h none).rs_userid = none ∧ (hspToTarget h none).rs_name = none) := by
  have hnd : ((buildMapStage maps).map MapEntry.creator_norm).Nodup :=
    (dedupFirstBy_spec [] _).1
  have hchar := baseHsp_char hsp (buildMapStage maps) stage cutoff hnd
  refine ⟨?_, ?_, ?_, hchar, fun h => ⟨rfl, rfl⟩⟩
  · unfold backfillQuery
    have hlen : (sortByLE targetLEBQ
        (mariaCTE stage cutoff ++ baseHsp hsp (buildMapStage maps) stage cutoff)).length
        = (mariaCTE stage cutoff ++ baseHsp hsp (buildMapStage maps) stage cutoff).length :=
      (sortByLE_perm _ _).length_eq
    rw [List.map_snd_zip _ _ (by simp [hlen])]
    exact sortByLE_perm _ _
  · unfold mariaCTE
    rw [List.filter_eq_self.mpr hstage]
  · rintro v ⟨⟨r1, hr1, hv1⟩, r2, hr2, hv2⟩
    unfold mariaCTE at hr1
    rcases List.mem_map.mp hr1 with ⟨s, hsfil, rfl⟩
    have hs : s ∈ stage := (List.mem_filter.mp hsfil).1
    have hsv : s.userServiceID = some v := hv1
    rw [hchar] at hr2
    rcases List.mem_map.mp hr2 with ⟨h, hhfil, rfl⟩
    have hq := (List.mem_filter.mp hhfil).2
    unfold qualifiesHsp at hq
    rw [Bool.and_eq_true] at hq
    have hnoany := hq.2
    rw [Bool.not_eq_eq_eq_not, Bool.not_true, List.any_eq_false] at hnoany
    have hhv : h.userServiceId = some v := hv2
    have : svcMatches h.userServiceId s.userServiceID = true := by
      rw [hhv, hsv]
      unfold svcMatches
      simp
    exact absurd this (by simpa using hnoany s hs)

/-- Witness for C6 at the concrete run: cutoff 5, one live row
(CreateDate 10), the hypothesis `CreateDate ≥ cutoff` holds. -/
theorem backfill_merge_correctness_witness :
    mariaCTE c6Stage 5 = c6Stage.map mariaToTarget :=
  (backfill_merge_correctness c6Stage c6Hsp c6Maps 5 (by decide)).2.1

/-! ### Claim theorem: backfill with no live rows (C10) -/

theorem backfillLoop_no_rows :
    ∀ (srcData : List (List FactRow × List MapEntry)) (b : Bool),
      (∀ p ∈ srcData, p.1 = []) →
      (backfillLoop srcData b).1 = [] ∧ (backfillLoop srcData b).2.1 = b
  | [], b, _ => ⟨rfl, rfl⟩
  | (df, mp) :: rest, b, hempty => by
    have hdf : df = [] := hempty (df, mp) (List.mem_cons_self _ _)
    subst hdf
    obtain ⟨h1, h2⟩ := backfillLoop_no_rows rest (b || !(true : Bool))
      (fun p hp => hempty p (List.mem_cons_of_mem _ hp))
    simp only [backfillLoop, List.isEmpty_nil, if_true, List.nil_append]
    constructor
    · simpa using h1
    · simpa using h2

/-- An identity-map entry for the concrete no-data backfill run. -/
def c10Map : MapEntry := { creator_norm := "k", rs_userid := some 1, rs_name := some "s" }

/-- C10: when no configured source returns any live row for the cutoff,
the backfill command raises `RuntimeError('No MariaDB rows returned for
cutoff date.')` before the target table is created or replaced — only the
stage-table cleanup of the `finally` block runs — unlike the windowed
sync, which ends such a run as a logged no-data no-op. -/
theorem backfill_no_data_raises :
    (∀ (srcData : List (List FactRow × List MapEntry)) (hsp : List HspRow) (cutoff : Int),
        (∀ p ∈ srcData, p.1 = []) →
        (backfill_handle srcData hsp cutoff).2
            = .error "No MariaDB rows returned for cutoff date."
        ∧ BackfillAction.createOrReplaceTarget ∉ (backfill_handle srcData hsp cutoff).1
        ∧ (backfill_handle srcData hsp cutoff).1 = [BackfillAction.deleteStageTables])
    ∧ backfill_handle [([], [c10Map])] [] 5
        = ([BackfillAction.deleteStageTables],
           .error "No MariaDB rows returned for cutoff date.") := by
  constructor
  · intro srcData hsp cutoff hempty
    obtain ⟨hacts, hloaded⟩ := backfillLoop_no_rows srcData false hempty
    simp only [backfill_handle, hacts, hloaded, Bool.not_false, if_true, List.nil_append]
    exact ⟨trivial, by decide, trivial⟩
  · rfl

end Spec2Proof
